import Mathlib

/-!
# MMath.h — vector, quaternion and transform kernel

A shallow embedding of `src/MMath.h`.

* `scalar` is a type parameter `α` carrying exact field arithmetic and a
  decidable linear order; the theorems instantiate it with `ℝ`.
* The `<math.h>` primitives behind the `mm_sqrt`, `mm_acos`, `mm_cos` and
  `mm_sin` macros are not part of the header: every function that calls one
  takes it as a leading argument, and the theorems pass `Real.sqrt`,
  `Real.arccos`, `Real.cos` and `Real.sin`.
* A C function `T* f(T *dest, const A *a, ...)` that overwrites every
  component of `dest` is embedded as a function from the argument values to
  the value stored in `dest` (destination distinct from the arguments).
  Where the stored value depends on what `dest` held before
  (`vecNNormalize`), the prior content is an explicit argument.
* The fixed-count loops `VEC_FOR(N)` are written out for `i = 0 .. N-1` in
  program order; an accumulator `ret = 0; ret += e0; ret += e1` becomes
  `0 + e0 + e1`.
* Calls whose destination may be the same object as an argument are embedded
  a second time, on a memory of objects addressed by pointers (the
  definitions named `...At`), with every read and write in program order.
  There `matNMul` keeps its three loops, over a matrix indexed by
  `row[x].data[y]`.
-/

namespace MMath

/-! ## Types -/

/-- The C struct `vec2`: `data[2]` viewed as `x, y`. -/
structure vec2 (α : Type) where
  x : α
  y : α

/-- The C struct `vec3`: `data[3]` viewed as `x, y, z`. -/
structure vec3 (α : Type) where
  x : α
  y : α
  z : α

/-- The C struct `vec4`: `data[4]` viewed as `x, y, z, w`. -/
structure vec4 (α : Type) where
  x : α
  y : α
  z : α
  w : α

/-- The C struct `quat`: four scalars `x, y, z, w`, also viewed as a `vec4`
(`vec`) and, for the first three, as a `vec3` (`axis`). -/
structure quat (α : Type) where
  x : α
  y : α
  z : α
  w : α

/-- The C struct `mat3`: row-major, `row[0] = (x0, y0, z0)` and so on. -/
structure mat3 (α : Type) where
  x0 : α
  y0 : α
  z0 : α
  x1 : α
  y1 : α
  z1 : α
  x2 : α
  y2 : α
  z2 : α

/-- The C struct `mat4`: row-major, `row[0] = (x0, y0, z0, w0)` and so on. -/
structure mat4 (α : Type) where
  x0 : α
  y0 : α
  z0 : α
  w0 : α
  x1 : α
  y1 : α
  z1 : α
  w1 : α
  x2 : α
  y2 : α
  z2 : α
  w2 : α
  x3 : α
  y3 : α
  z3 : α
  w3 : α

/-- The C struct `transform`. -/
structure transform (α : Type) where
  pos : vec3 α
  scale : vec3 α
  rot : quat α

/-- The locals `temp1` and `temp2` of `vecNLerp`, as addresses. -/
inductive LerpLocal where
  | temp1
  | temp2
  deriving DecidableEq

/-- The C struct `matN` through its view `row[x].data[y]`, for the macro
parameter `integer = n`. -/
abbrev matN (n : Nat) (α : Type) : Type := Fin n → Fin n → α

section Defs

variable {α : Type} [LinearOrderedField α]

/-- The union member `quat.axis`: the first three scalars as a `vec3`. -/
def quat.axis (q : quat α) : vec3 α := ⟨q.x, q.y, q.z⟩

/-- The union member `quat.vec` / the cast `(const vec4*)q`. -/
def quat.vec (q : quat α) : vec4 α := ⟨q.x, q.y, q.z, q.w⟩

/-- The cast `(vec4*)dest` read back as a `quat` after the write. -/
def quat.ofVec4 (v : vec4 α) : quat α := ⟨v.x, v.y, v.z, v.w⟩

/-! ## Vector math: `MMATH_GENFUNC_VECSTANDARD(2)` -/

/-- Embeds `vec2Length`. -/
def vec2Length (sqrt : α → α) (a : vec2 α) : α :=
  sqrt (0 + a.x * a.x + a.y * a.y)

/-- Embeds `vec2Normalize`: `dest` is returned untouched when the length is zero. -/
def vec2Normalize (sqrt : α → α) (dest a : vec2 α) : vec2 α :=
  let len := vec2Length sqrt a
  if len = 0 then dest
  else
    let len := 1 / len
    ⟨a.x * len, a.y * len⟩

/-- Embeds `vec2MulScalar`. -/
def vec2MulScalar (a : vec2 α) (b : α) : vec2 α :=
  ⟨a.x * b, a.y * b⟩

/-- Embeds `vec2Add`. -/
def vec2Add (a b : vec2 α) : vec2 α :=
  ⟨a.x + b.x, a.y + b.y⟩

/-- Embeds `vec2Sub`. -/
def vec2Sub (a b : vec2 α) : vec2 α :=
  ⟨a.x - b.x, a.y - b.y⟩

/-- Embeds `vec2Lerp`: `temp1 = l - f; temp2 = temp1 * t; dest = temp2 + f`. -/
def vec2Lerp (f l : vec2 α) (t : α) : vec2 α :=
  let temp1 := vec2Sub l f
  let temp2 := vec2MulScalar temp1 t
  vec2Add temp2 f

/-! ## Vector math: `MMATH_GENFUNC_VECSTANDARD(3)` -/

/-- Embeds `vec3MulScalar`. -/
def vec3MulScalar (a : vec3 α) (b : α) : vec3 α :=
  ⟨a.x * b, a.y * b, a.z * b⟩

/-- Embeds `vec3Add`. -/
def vec3Add (a b : vec3 α) : vec3 α :=
  ⟨a.x + b.x, a.y + b.y, a.z + b.z⟩

/-- Embeds `vec3Mul` (componentwise). -/
def vec3Mul (a b : vec3 α) : vec3 α :=
  ⟨a.x * b.x, a.y * b.y, a.z * b.z⟩

/-- Embeds `vec3Dot`. -/
def vec3Dot (a b : vec3 α) : α :=
  0 + a.x * b.x + a.y * b.y + a.z * b.z

/-- Embeds `vec3Length`. -/
def vec3Length (sqrt : α → α) (a : vec3 α) : α :=
  sqrt (0 + a.x * a.x + a.y * a.y + a.z * a.z)

/-- Embeds `vec3Normalize`: `dest` is returned untouched when the length is zero. -/
def vec3Normalize (sqrt : α → α) (dest a : vec3 α) : vec3 α :=
  let len := vec3Length sqrt a
  if len = 0 then dest
  else
    let len := 1 / len
    ⟨a.x * len, a.y * len, a.z * len⟩

/-- Embeds `vec3Sub`. -/
def vec3Sub (a b : vec3 α) : vec3 α :=
  ⟨a.x - b.x, a.y - b.y, a.z - b.z⟩

/-- Embeds `vec3Negate`. -/
def vec3Negate (a : vec3 α) : vec3 α :=
  ⟨-a.x, -a.y, -a.z⟩

/-- Embeds `vec3Lerp`: `temp1 = l - f; temp2 = temp1 * t; dest = temp2 + f`. -/
def vec3Lerp (f l : vec3 α) (t : α) : vec3 α :=
  let temp1 := vec3Sub l f
  let temp2 := vec3MulScalar temp1 t
  vec3Add temp2 f

/-- Embeds `vec3Zero`. -/
def vec3Zero : vec3 α := ⟨0, 0, 0⟩

/-- Embeds `vec3XAxis`. -/
def vec3XAxis : vec3 α := ⟨1, 0, 0⟩

/-- Embeds `vec3YAxis`. -/
def vec3YAxis : vec3 α := ⟨0, 1, 0⟩

/-- Embeds `vec3ZAxis`. -/
def vec3ZAxis : vec3 α := ⟨0, 0, 1⟩

/-- Embeds `vec3Cross`. -/
def vec3Cross (a b : vec3 α) : vec3 α :=
  ⟨a.y * b.z - a.z * b.y,
   a.z * b.x - a.x * b.z,
   a.x * b.y - a.y * b.x⟩

/-! ## Vector math: `MMATH_GENFUNC_VECSTANDARD(4)` -/

/-- Embeds `vec4MulScalar`. -/
def vec4MulScalar (a : vec4 α) (b : α) : vec4 α :=
  ⟨a.x * b, a.y * b, a.z * b, a.w * b⟩

/-- Embeds `vec4Add`. -/
def vec4Add (a b : vec4 α) : vec4 α :=
  ⟨a.x + b.x, a.y + b.y, a.z + b.z, a.w + b.w⟩

/-- Embeds `vec4Sub`. -/
def vec4Sub (a b : vec4 α) : vec4 α :=
  ⟨a.x - b.x, a.y - b.y, a.z - b.z, a.w - b.w⟩

/-- Embeds `vec4Dot`. -/
def vec4Dot (a b : vec4 α) : α :=
  0 + a.x * b.x + a.y * b.y + a.z * b.z + a.w * b.w

/-- Embeds `vec4Length`. -/
def vec4Length (sqrt : α → α) (a : vec4 α) : α :=
  sqrt (0 + a.x * a.x + a.y * a.y + a.z * a.z + a.w * a.w)

/-- Embeds `vec4Normalize`: `dest` is returned untouched when the length is zero. -/
def vec4Normalize (sqrt : α → α) (dest a : vec4 α) : vec4 α :=
  let len := vec4Length sqrt a
  if len = 0 then dest
  else
    let len := 1 / len
    ⟨a.x * len, a.y * len, a.z * len, a.w * len⟩

/-- Embeds `vec4Lerp`: `temp1 = l - f; temp2 = temp1 * t; dest = temp2 + f`. -/
def vec4Lerp (f l : vec4 α) (t : α) : vec4 α :=
  let temp1 := vec4Sub l f
  let temp2 := vec4MulScalar temp1 t
  vec4Add temp2 f

/-! ## Quaternion math -/

/-- Embeds `quatLength`. -/
def quatLength (sqrt : α → α) (a : quat α) : α :=
  vec4Length sqrt a.vec

/-- Embeds `quatNormalize`: `vec4Normalize` through the casts `(vec4*)dest` and
`(const vec4*)a`. -/
def quatNormalize (sqrt : α → α) (dest a : quat α) : quat α :=
  quat.ofVec4 (vec4Normalize sqrt dest.vec a.vec)

/-- Embeds `quatMulScalar`. -/
def quatMulScalar (a : quat α) (b : α) : quat α :=
  quat.ofVec4 (vec4MulScalar a.vec b)

/-- Embeds `quatAdd`. -/
def quatAdd (a b : quat α) : quat α :=
  quat.ofVec4 (vec4Add a.vec b.vec)

/-- Embeds `quatMul`, destination distinct from `a` and `b`. -/
def quatMul (a b : quat α) : quat α :=
  let w := a.w * b.w - vec3Dot a.axis b.axis
  let BwAv := vec3MulScalar a.axis b.w
  let AwBv := vec3MulScalar b.axis a.w
  let abv := vec3Add BwAv AwBv
  let AxB := vec3Cross a.axis b.axis
  let axis := vec3Add abv AxB
  ⟨axis.x, axis.y, axis.z, w⟩

/-- Embeds `quatMulVec3`. -/
def quatMulVec3 (a : quat α) (b : vec3 α) : vec3 α :=
  let cross1 := vec3Cross a.axis b
  let t := vec3MulScalar cross1 2
  let tw := vec3MulScalar t a.w
  let cross2 := vec3Cross a.axis t
  let tw_cross := vec3Add tw cross2
  vec3Add b tw_cross

/-- Embeds `quatNegate`. -/
def quatNegate (a : quat α) : quat α :=
  ⟨-a.x, -a.y, -a.z, -a.w⟩

/-- Embeds `quatConjugate`. -/
def quatConjugate (a : quat α) : quat α :=
  ⟨-a.x, -a.y, -a.z, a.w⟩

/-- Embeds `quatInverse`: the conjugate, multiplied by `1 / length²` when
`length - 1 <= 0.00001`. -/
def quatInverse (sqrt : α → α) (a : quat α) : quat α :=
  let dest := quatConjugate a
  let length := quatLength sqrt a
  if length - 1 ≤ 0.00001 then
    let l2 := 1 / (length * length)
    ⟨dest.x * l2, dest.y * l2, dest.z * l2, dest.w * l2⟩
  else dest

/-- Embeds `quatEuler` (source comment: `pitch X | yaw Y | roll Z`). -/
def quatEuler (cos sin : α → α) (e : vec3 α) : quat α :=
  let cy := cos (e.y * 0.5)
  let sy := sin (e.y * 0.5)
  let cr := cos (e.z * 0.5)
  let sr := sin (e.z * 0.5)
  let cp := cos (e.x * 0.5)
  let sp := sin (e.x * 0.5)
  ⟨cy * sr * cp - sy * cr * sp,
   cy * cr * sp + sy * sr * cp,
   sy * cr * cp - cy * sr * sp,
   cy * cr * cp + sy * sr * sp⟩

/-- Embeds `quatAxisAngle`. -/
def quatAxisAngle (sin cos : α → α) (axis : vec3 α) (r : α) : quat α :=
  let a2 := r * 0.5
  let ax := vec3MulScalar axis (sin a2)
  ⟨ax.x, ax.y, ax.z, cos a2⟩

/-- Embeds `quatToMat3`. -/
def quatToMat3 (a : quat α) : mat3 α :=
  let x2 := a.x * a.x
  let y2 := a.y * a.y
  let z2 := a.z * a.z
  let xy := a.x * a.y
  let xz := a.x * a.z
  let yz := a.y * a.z
  let xw := a.x * a.w
  let yw := a.y * a.w
  let zw := a.z * a.w
  ⟨1 - (2 * (y2 + z2)), 2 * (xy + zw), 2 * (xz - yw),
   2 * (xy - zw), 1 - (2 * (x2 + z2)), 2 * (yz + xw),
   2 * (xz + yw), 2 * (yz - xw), 1 - (2 * (x2 + y2))⟩

/-- Embeds `quatSlerp`, destination distinct from `f` and `l`. -/
def quatSlerp (sqrt acos sin : α → α) (f l : quat α) (t : α) : quat α :=
  let dot := vec4Dot f.vec l.vec
  let s : α × quat α :=
    if dot < 0 then (-dot, quatInverse sqrt l) else (dot, l)
  let dot := s.1
  let dest := s.2
  if dot < 0.95 then
    let angle := acos dot
    let fp := quatMulScalar f (sin (angle * (1 - t)))
    let temp := quatMulScalar dest (sin (angle * t))
    let dest := quatAdd fp temp
    let temp := quatMulScalar dest (1 / sin angle)
    temp
  else
    let temp := quat.ofVec4 (vec4Lerp f.vec dest.vec t)
    temp

/-! ## Matrix math: `MMATH_GENFUNC_MATSTANDARD(3)` -/

/-- Embeds `mat3MulVec3`: `dest = 0`, then for `i` and for `c`,
`dest.data[i] += a.row[c].data[i] * b.data[c]`. -/
def mat3MulVec3 (a : mat3 α) (b : vec3 α) : vec3 α :=
  ⟨0 + a.x0 * b.x + a.x1 * b.y + a.x2 * b.z,
   0 + a.y0 * b.x + a.y1 * b.y + a.y2 * b.z,
   0 + a.z0 * b.x + a.z1 * b.y + a.z2 * b.z⟩

/-- Embeds `mat3ToMat4`. -/
def mat3ToMat4 (a : mat3 α) : mat4 α :=
  ⟨a.x0, a.y0, a.z0, 0,
   a.x1, a.y1, a.z1, 0,
   a.x2, a.y2, a.z2, 0,
   0, 0, 0, 1⟩

/-- Embeds `quatToMat4` (it follows `mat3ToMat4` here; the header declares
`mat3ToMat4` ahead of it). -/
def quatToMat4 (a : quat α) : mat4 α :=
  let ret := quatToMat3 a
  mat3ToMat4 ret

/-- Embeds `mat3RotateX`. -/
def mat3RotateX (cos sin : α → α) (r : α) : mat3 α :=
  let c := cos r
  let s := sin r
  ⟨1, 0, 0,
   0, c, s,
   0, -s, c⟩

/-- Embeds `mat3RotateY`. -/
def mat3RotateY (cos sin : α → α) (r : α) : mat3 α :=
  let c := cos r
  let s := sin r
  ⟨c, 0, -s,
   0, 1, 0,
   s, 0, c⟩

/-- Embeds `mat3RotateZ`. -/
def mat3RotateZ (cos sin : α → α) (r : α) : mat3 α :=
  let c := cos r
  let s := sin r
  ⟨c, s, 0,
   -s, c, 0,
   0, 0, 1⟩

/-! ## Matrix math: `MMATH_GENFUNC_MATSTANDARD(4)` and the `mat4` constructors -/

/-- Embeds `mat4Mul`, destination distinct from `a` and `b`: `dest = 0`, then for `x`,
for `y`, for `i`, `dest.row[x].data[y] += a.row[x].data[i] * b.row[i].data[y]`. -/
def mat4Mul (a b : mat4 α) : mat4 α :=
  ⟨0 + a.x0 * b.x0 + a.y0 * b.x1 + a.z0 * b.x2 + a.w0 * b.x3,
   0 + a.x0 * b.y0 + a.y0 * b.y1 + a.z0 * b.y2 + a.w0 * b.y3,
   0 + a.x0 * b.z0 + a.y0 * b.z1 + a.z0 * b.z2 + a.w0 * b.z3,
   0 + a.x0 * b.w0 + a.y0 * b.w1 + a.z0 * b.w2 + a.w0 * b.w3,
   0 + a.x1 * b.x0 + a.y1 * b.x1 + a.z1 * b.x2 + a.w1 * b.x3,
   0 + a.x1 * b.y0 + a.y1 * b.y1 + a.z1 * b.y2 + a.w1 * b.y3,
   0 + a.x1 * b.z0 + a.y1 * b.z1 + a.z1 * b.z2 + a.w1 * b.z3,
   0 + a.x1 * b.w0 + a.y1 * b.w1 + a.z1 * b.w2 + a.w1 * b.w3,
   0 + a.x2 * b.x0 + a.y2 * b.x1 + a.z2 * b.x2 + a.w2 * b.x3,
   0 + a.x2 * b.y0 + a.y2 * b.y1 + a.z2 * b.y2 + a.w2 * b.y3,
   0 + a.x2 * b.z0 + a.y2 * b.z1 + a.z2 * b.z2 + a.w2 * b.z3,
   0 + a.x2 * b.w0 + a.y2 * b.w1 + a.z2 * b.w2 + a.w2 * b.w3,
   0 + a.x3 * b.x0 + a.y3 * b.x1 + a.z3 * b.x2 + a.w3 * b.x3,
   0 + a.x3 * b.y0 + a.y3 * b.y1 + a.z3 * b.y2 + a.w3 * b.y3,
   0 + a.x3 * b.z0 + a.y3 * b.z1 + a.z3 * b.z2 + a.w3 * b.z3,
   0 + a.x3 * b.w0 + a.y3 * b.w1 + a.z3 * b.w2 + a.w3 * b.w3⟩

/-- Embeds `mat4MulVec4`: `dest = 0`, then for `i` and for `c`,
`dest.data[i] += a.row[c].data[i] * b.data[c]`. -/
def mat4MulVec4 (a : mat4 α) (b : vec4 α) : vec4 α :=
  ⟨0 + a.x0 * b.x + a.x1 * b.y + a.x2 * b.z + a.x3 * b.w,
   0 + a.y0 * b.x + a.y1 * b.y + a.y2 * b.z + a.y3 * b.w,
   0 + a.z0 * b.x + a.z1 * b.y + a.z2 * b.z + a.z3 * b.w,
   0 + a.w0 * b.x + a.w1 * b.y + a.w2 * b.z + a.w3 * b.w⟩

/-- Embeds `mat4Translate`. -/
def mat4Translate (t : vec3 α) : mat4 α :=
  ⟨1, 0, 0, 0,
   0, 1, 0, 0,
   0, 0, 1, 0,
   t.x, t.y, t.z, 1⟩

/-- Embeds `mat4LookAt`. The locals `z`, `x` and `y` are declared without an
initialiser and passed to `vec3Normalize` as destinations; `zInit`, `xInit`
and `yInit` are what they hold at that point. -/
def mat4LookAt (sqrt : α → α) (zInit xInit yInit : vec3 α) (eye center up : vec3 α) :
    mat4 α :=
  let temp := vec3Sub center eye
  let z := vec3Normalize sqrt zInit temp
  let temp := vec3Cross up z
  let x := vec3Normalize sqrt xInit temp
  let temp := vec3Cross z x
  let y := vec3Normalize sqrt yInit temp
  let n_dot_x := -vec3Dot x eye
  let n_dot_y := -vec3Dot y eye
  let n_dot_z := -vec3Dot z eye
  ⟨x.x, y.x, z.x, 0,
   x.y, y.y, z.y, 0,
   x.z, y.z, z.z, 0,
   n_dot_x, n_dot_y, n_dot_z, 1⟩

/-! ## Transformations -/

/-- Embeds `transformIdentity`. -/
def transformIdentity : transform α :=
  ⟨⟨0, 0, 0⟩, ⟨1, 1, 1⟩, ⟨0, 0, 0, 1⟩⟩

/-- Embeds `transformToMat4`: `mat4Mul(dest, &rotate, &ret)` on the two locals. -/
def transformToMat4 (t : transform α) : mat4 α :=
  let ret : mat4 α :=
    ⟨t.scale.x, 0, 0, 0,
     0, t.scale.y, 0, 0,
     0, 0, t.scale.z, 0,
     t.pos.x, t.pos.y, t.pos.z, 1⟩
  let rotate := quatToMat4 t.rot
  mat4Mul rotate ret

/-- Embeds `transformMul`, destination distinct from `a` and `b`. -/
def transformMul (a b : transform α) : transform α :=
  let pos := quatMulVec3 a.rot b.pos
  let posScale := vec3Mul pos a.scale
  ⟨vec3Add posScale a.pos, vec3Mul a.scale b.scale, quatMul a.rot b.rot⟩

/-! ## Calls on shared objects

The definitions above take every argument by value: they describe a call
whose destination is an object of its own. The definitions below run the
same bodies on a memory `m : P → T` of objects of one C type, addressed by
pointers of type `P`, so that `dest` may be the same object as an argument:
every read `p->data[i]` takes the current content of `m p`, every write
replaces one component of `m dest`, in program order. -/

section Shared

variable {P : Type} [DecidableEq P]

/-- Embeds `vec2Sub` on shared objects: `dest->data[i] = a->data[i] - b->data[i]`
for `i = 0 .. 1`, each read taken from the memory as the earlier writes left it. -/
def vec2SubAt (m : P → vec2 α) (dest a b : P) : P → vec2 α :=
  let m := Function.update m dest { m dest with x := (m a).x - (m b).x }
  let m := Function.update m dest { m dest with y := (m a).y - (m b).y }
  m

/-- Embeds `vec2Add` on shared objects: `dest->data[i] = a->data[i] + b->data[i]`
for `i = 0 .. 1`, each read taken from the memory as the earlier writes left it. -/
def vec2AddAt (m : P → vec2 α) (dest a b : P) : P → vec2 α :=
  let m := Function.update m dest { m dest with x := (m a).x + (m b).x }
  let m := Function.update m dest { m dest with y := (m a).y + (m b).y }
  m

/-- Embeds `vec2MulScalar` on shared objects: `dest->data[i] = a->data[i] * b` for
`i = 0 .. 1`. -/
def vec2MulScalarAt (m : P → vec2 α) (dest a : P) (b : α) : P → vec2 α :=
  let m := Function.update m dest { m dest with x := (m a).x * b }
  let m := Function.update m dest { m dest with y := (m a).y * b }
  m

/-- Embeds `vec2Lerp` on shared objects. The caller's objects are at the addresses
`Sum.inl p`; the locals `temp1` and `temp2`, declared without an initialiser
(`temp1Init`, `temp2Init` is what they hold), are objects of their own at the
addresses `Sum.inr _`. -/
def vec2LerpAt (temp1Init temp2Init : vec2 α) (m : P → vec2 α) (dest f l : P) (t : α) :
    P → vec2 α :=
  let fr : P ⊕ LerpLocal → vec2 α :=
    Sum.elim m (fun v => match v with
      | LerpLocal.temp1 => temp1Init
      | LerpLocal.temp2 => temp2Init)
  let fr := vec2SubAt fr (Sum.inr LerpLocal.temp1) (Sum.inl l) (Sum.inl f)
  let fr := vec2MulScalarAt fr (Sum.inr LerpLocal.temp2) (Sum.inr LerpLocal.temp1) t
  let fr := vec2AddAt fr (Sum.inl dest) (Sum.inr LerpLocal.temp2) (Sum.inl f)
  fun p => fr (Sum.inl p)

/-- Embeds `vec3Sub` on shared objects: `dest->data[i] = a->data[i] - b->data[i]`
for `i = 0 .. 2`, each read taken from the memory as the earlier writes left it. -/
def vec3SubAt (m : P → vec3 α) (dest a b : P) : P → vec3 α :=
  let m := Function.update m dest { m dest with x := (m a).x - (m b).x }
  let m := Function.update m dest { m dest with y := (m a).y - (m b).y }
  let m := Function.update m dest { m dest with z := (m a).z - (m b).z }
  m

/-- Embeds `vec3Add` on shared objects: `dest->data[i] = a->data[i] + b->data[i]`
for `i = 0 .. 2`, each read taken from the memory as the earlier writes left it. -/
def vec3AddAt (m : P → vec3 α) (dest a b : P) : P → vec3 α :=
  let m := Function.update m dest { m dest with x := (m a).x + (m b).x }
  let m := Function.update m dest { m dest with y := (m a).y + (m b).y }
  let m := Function.update m dest { m dest with z := (m a).z + (m b).z }
  m

/-- Embeds `vec3MulScalar` on shared objects: `dest->data[i] = a->data[i] * b` for
`i = 0 .. 2`. -/
def vec3MulScalarAt (m : P → vec3 α) (dest a : P) (b : α) : P → vec3 α :=
  let m := Function.update m dest { m dest with x := (m a).x * b }
  let m := Function.update m dest { m dest with y := (m a).y * b }
  let m := Function.update m dest { m dest with z := (m a).z * b }
  m

/-- Embeds `vec3Lerp` on shared objects. The caller's objects are at the addresses
`Sum.inl p`; the locals `temp1` and `temp2`, declared without an initialiser
(`temp1Init`, `temp2Init` is what they hold), are objects of their own at the
addresses `Sum.inr _`. -/
def vec3LerpAt (temp1Init temp2Init : vec3 α) (m : P → vec3 α) (dest f l : P) (t : α) :
    P → vec3 α :=
  let fr : P ⊕ LerpLocal → vec3 α :=
    Sum.elim m (fun v => match v with
      | LerpLocal.temp1 => temp1Init
      | LerpLocal.temp2 => temp2Init)
  let fr := vec3SubAt fr (Sum.inr LerpLocal.temp1) (Sum.inl l) (Sum.inl f)
  let fr := vec3MulScalarAt fr (Sum.inr LerpLocal.temp2) (Sum.inr LerpLocal.temp1) t
  let fr := vec3AddAt fr (Sum.inl dest) (Sum.inr LerpLocal.temp2) (Sum.inl f)
  fun p => fr (Sum.inl p)

/-- Embeds `vec3Cross` on shared objects: the three writes to `dest->x`, `dest->y`,
`dest->z` in program order. -/
def vec3CrossAt (m : P → vec3 α) (dest a b : P) : P → vec3 α :=
  let m := Function.update m dest { m dest with x := (m a).y * (m b).z - (m a).z * (m b).y }
  let m := Function.update m dest { m dest with y := (m a).z * (m b).x - (m a).x * (m b).z }
  let m := Function.update m dest { m dest with z := (m a).x * (m b).y - (m a).y * (m b).x }
  m

/-- Embeds `vec4Sub` on shared objects: `dest->data[i] = a->data[i] - b->data[i]`
for `i = 0 .. 3`, each read taken from the memory as the earlier writes left it. -/
def vec4SubAt (m : P → vec4 α) (dest a b : P) : P → vec4 α :=
  let m := Function.update m dest { m dest with x := (m a).x - (m b).x }
  let m := Function.update m dest { m dest with y := (m a).y - (m b).y }
  let m := Function.update m dest { m dest with z := (m a).z - (m b).z }
  let m := Function.update m dest { m dest with w := (m a).w - (m b).w }
  m

/-- Embeds `vec4Add` on shared objects: `dest->data[i] = a->data[i] + b->data[i]`
for `i = 0 .. 3`, each read taken from the memory as the earlier writes left it. -/
def vec4AddAt (m : P → vec4 α) (dest a b : P) : P → vec4 α :=
  let m := Function.update m dest { m dest with x := (m a).x + (m b).x }
  let m := Function.update m dest { m dest with y := (m a).y + (m b).y }
  let m := Function.update m dest { m dest with z := (m a).z + (m b).z }
  let m := Function.update m dest { m dest with w := (m a).w + (m b).w }
  m

/-- Embeds `vec4MulScalar` on shared objects: `dest->data[i] = a->data[i] * b` for
`i = 0 .. 3`. -/
def vec4MulScalarAt (m : P → vec4 α) (dest a : P) (b : α) : P → vec4 α :=
  let m := Function.update m dest { m dest with x := (m a).x * b }
  let m := Function.update m dest { m dest with y := (m a).y * b }
  let m := Function.update m dest { m dest with z := (m a).z * b }
  let m := Function.update m dest { m dest with w := (m a).w * b }
  m

/-- Embeds `vec4Lerp` on shared objects. The caller's objects are at the addresses
`Sum.inl p`; the locals `temp1` and `temp2`, declared without an initialiser
(`temp1Init`, `temp2Init` is what they hold), are objects of their own at the
addresses `Sum.inr _`. -/
def vec4LerpAt (temp1Init temp2Init : vec4 α) (m : P → vec4 α) (dest f l : P) (t : α) :
    P → vec4 α :=
  let fr : P ⊕ LerpLocal → vec4 α :=
    Sum.elim m (fun v => match v with
      | LerpLocal.temp1 => temp1Init
      | LerpLocal.temp2 => temp2Init)
  let fr := vec4SubAt fr (Sum.inr LerpLocal.temp1) (Sum.inl l) (Sum.inl f)
  let fr := vec4MulScalarAt fr (Sum.inr LerpLocal.temp2) (Sum.inr LerpLocal.temp1) t
  let fr := vec4AddAt fr (Sum.inl dest) (Sum.inr LerpLocal.temp2) (Sum.inl f)
  fun p => fr (Sum.inl p)

/-- Embeds `matNMul` (`MMATH_GENFUNC_MATMUL(n)`) on shared objects: `*dest = 0`, then
for `x`, for `y`, for `i`,
`dest->row[x].data[y] += a->row[x].data[i] * b->row[i].data[y]`. -/
def matNMulAt (n : Nat) (m : P → matN n α) (dest a b : P) : P → matN n α :=
  let m := Function.update m dest (fun _ _ => 0)
  (List.finRange n).foldl (fun m x =>
    (List.finRange n).foldl (fun m y =>
      (List.finRange n).foldl (fun m i =>
        Function.update m dest
          (Function.update (m dest) x
            (Function.update (m dest x) y (m dest x y + m a x i * m b i y)))) m) m) m

/-- The standard row-by-column product of the spec: entry `(x, y)` is the sum
over `i` of `a[x][i] * b[i][y]`. -/
def rowByColumnProduct (n : Nat) (a b : matN n α) : matN n α :=
  fun x y => ∑ i : Fin n, a x i * b i y

/-- The view `data[i]` of a `vec4`. -/
def vec4.data (v : vec4 α) (i : Fin 4) : α :=
  if i.val = 0 then v.x else if i.val = 1 then v.y else if i.val = 2 then v.z else v.w

/-- The view `row[x]` of a `mat4`. -/
def mat4.row (a : mat4 α) (x : Fin 4) : vec4 α :=
  if x.val = 0 then ⟨a.x0, a.y0, a.z0, a.w0⟩
  else if x.val = 1 then ⟨a.x1, a.y1, a.z1, a.w1⟩
  else if x.val = 2 then ⟨a.x2, a.y2, a.z2, a.w2⟩
  else ⟨a.x3, a.y3, a.z3, a.w3⟩

/-- The view `row[x].data[y]` of a `mat4`. -/
def mat4.toMatN (a : mat4 α) : matN 4 α :=
  fun x y => (a.row x).data y

end Shared

end Defs

/-! ## Theorems -/

/-- C1: for a unit quaternion `q` and any `v`, the double-cross rotation
`quatMulVec3 q v` is the axis part of the sandwich
`quatMul (quatMul q p) (quatInverse q)` with `p = (v, 0)`, and the `w`
component of the sandwich is zero. -/
theorem quatMulVec3_eq_sandwich (q : quat ℝ) (v : vec3 ℝ)
    (hq : q.x ^ 2 + q.y ^ 2 + q.z ^ 2 + q.w ^ 2 = 1) :
    quatMulVec3 q v
        = (quatMul (quatMul q ⟨v.x, v.y, v.z, 0⟩) (quatInverse Real.sqrt q)).axis
      ∧ (quatMul (quatMul q ⟨v.x, v.y, v.z, 0⟩) (quatInverse Real.sqrt q)).w = 0 := by
  obtain ⟨x, y, z, w⟩ := q
  obtain ⟨a, b, c⟩ := v
  simp only at hq
  have hlen : (0 : ℝ) + x * x + y * y + z * z + w * w = 1 := by rw [← hq]; ring
  have hinv : quatInverse Real.sqrt (⟨x, y, z, w⟩ : quat ℝ) = ⟨-x, -y, -z, w⟩ := by
    simp only [quatInverse, quatLength, vec4Length, quat.vec, quatConjugate, hlen,
      Real.sqrt_one]
    norm_num
  rw [hinv]
  refine ⟨?_, ?_⟩
  · simp only [quatMulVec3, quatMul, quat.axis, vec3Cross, vec3MulScalar, vec3Add, vec3Dot,
      vec3.mk.injEq]
    refine ⟨?_, ?_, ?_⟩
    · linear_combination (-a) * hq
    · linear_combination (-b) * hq
    · linear_combination (-c) * hq
  · simp only [quatMul, quat.axis, vec3Cross, vec3MulScalar, vec3Add, vec3Dot]
    ring

/-- C1 at the unit quaternion `(3/5, 0, 0, 4/5)` and `v = (1, 2, 3)`. -/
theorem quatMulVec3_eq_sandwich_witness :
    ((3 / 5 : ℝ) ^ 2 + (0 : ℝ) ^ 2 + (0 : ℝ) ^ 2 + (4 / 5 : ℝ) ^ 2 = 1)
      ∧ (quatMulVec3 (⟨3 / 5, 0, 0, 4 / 5⟩ : quat ℝ) ⟨1, 2, 3⟩
          = (quatMul (quatMul (⟨3 / 5, 0, 0, 4 / 5⟩ : quat ℝ) ⟨1, 2, 3, 0⟩)
              (quatInverse Real.sqrt ⟨3 / 5, 0, 0, 4 / 5⟩)).axis
        ∧ (quatMul (quatMul (⟨3 / 5, 0, 0, 4 / 5⟩ : quat ℝ) ⟨1, 2, 3, 0⟩)
              (quatInverse Real.sqrt ⟨3 / 5, 0, 0, 4 / 5⟩)).w = 0) :=
  ⟨by norm_num, quatMulVec3_eq_sandwich ⟨3 / 5, 0, 0, 4 / 5⟩ ⟨1, 2, 3⟩ (by norm_num)⟩

/-- C2: for every quaternion `q` and every `v`, applying `quatToMat3 q` with
`mat3MulVec3` gives `quatMulVec3 q v`; in particular for
`q = quatAxisAngle vec3YAxis θ` at every angle `θ`. -/
theorem mat3MulVec3_quatToMat3 :
    (∀ (q : quat ℝ) (v : vec3 ℝ), mat3MulVec3 (quatToMat3 q) v = quatMulVec3 q v)
      ∧ (∀ (θ : ℝ) (v : vec3 ℝ),
          mat3MulVec3 (quatToMat3 (quatAxisAngle Real.sin Real.cos vec3YAxis θ)) v
            = quatMulVec3 (quatAxisAngle Real.sin Real.cos vec3YAxis θ) v) := by
  have h : ∀ (q : quat ℝ) (v : vec3 ℝ),
      mat3MulVec3 (quatToMat3 q) v = quatMulVec3 q v := by
    intro q v
    simp only [mat3MulVec3, quatToMat3, quatMulVec3, quat.axis, vec3Cross, vec3MulScalar,
      vec3Add, vec3.mk.injEq]
    refine ⟨?_, ?_, ?_⟩ <;> ring
  exact ⟨h, fun θ v => h _ v⟩

/-- C3: `transformMul` is associative on the `rot` and on the `scale`
component. -/
theorem transformMul_assoc_rot_scale (A B C : transform ℝ) :
    (transformMul (transformMul A B) C).rot = (transformMul A (transformMul B C)).rot
      ∧ (transformMul (transformMul A B) C).scale
          = (transformMul A (transformMul B C)).scale := by
  refine ⟨?_, ?_⟩
  · simp only [transformMul, quatMul, quat.axis, vec3Cross, vec3MulScalar, vec3Add, vec3Dot,
      quat.mk.injEq]
    refine ⟨?_, ?_, ?_, ?_⟩ <;> ring
  · simp only [transformMul, vec3Mul, vec3.mk.injEq]
    refine ⟨?_, ?_, ?_⟩ <;> ring

/-- C4: `transformMul transformIdentity t = t`, field by field. -/
theorem transformMul_identity_left (t : transform ℝ) :
    transformMul transformIdentity t = t := by
  obtain ⟨⟨px, py, pz⟩, ⟨sx, sy, sz⟩, ⟨rx, ry, rz, rw⟩⟩ := t
  simp [transformMul, transformIdentity, quatMulVec3, quatMul, quat.axis, vec3Cross,
    vec3MulScalar, vec3Add, vec3Mul, vec3Dot]

/-- C5 as stated fails: `q = (0, 0, 0, 1/2)` has length `1/2`, which differs
from 1 by more than `0.00001`, yet `quatInverse` rescales it: the result is
`(0, 0, 0, 2)`, not the conjugate `(0, 0, 0, 1/2)`. -/
theorem quatInverse_short_counterexample :
    0.00001 < |quatLength Real.sqrt (⟨0, 0, 0, 1 / 2⟩ : quat ℝ) - 1|
      ∧ quatInverse Real.sqrt (⟨0, 0, 0, 1 / 2⟩ : quat ℝ) = ⟨0, 0, 0, 2⟩
      ∧ quatInverse Real.sqrt (⟨0, 0, 0, 1 / 2⟩ : quat ℝ)
          ≠ quatConjugate ⟨0, 0, 0, 1 / 2⟩ := by
  have hs : Real.sqrt ((0 : ℝ) + 0 * 0 + 0 * 0 + 0 * 0 + 1 / 2 * (1 / 2)) = 1 / 2 := by
    rw [show ((0 : ℝ) + 0 * 0 + 0 * 0 + 0 * 0 + 1 / 2 * (1 / 2)) = (1 / 2) ^ 2 by norm_num]
    exact Real.sqrt_sq (by norm_num)
  have hinv : quatInverse Real.sqrt (⟨0, 0, 0, 1 / 2⟩ : quat ℝ) = ⟨0, 0, 0, 2⟩ := by
    simp only [quatInverse, quatLength, vec4Length, quat.vec, quatConjugate, hs]
    norm_num
  refine ⟨?_, hinv, ?_⟩
  · simp only [quatLength, vec4Length, quat.vec, hs]
    norm_num [abs_of_neg]
  · rw [hinv]
    simp only [quatConjugate, ne_eq, quat.mk.injEq, not_and]
    norm_num

/-- C5 (amended): when the length exceeds 1 by more than `0.00001`
(`length - 1 > 0.00001`), `quatInverse q` is exactly `quatConjugate q`. -/
theorem quatInverse_eq_conjugate_of_long (q : quat ℝ)
    (h : 0.00001 < quatLength Real.sqrt q - 1) :
    quatInverse Real.sqrt q = quatConjugate q := by
  simp only [quatInverse]
  rw [if_neg (not_le.mpr h)]

/-- C5 (amended) at `q = (0, 0, 0, 2)`, of length 2. -/
theorem quatInverse_eq_conjugate_of_long_witness :
    0.00001 < quatLength Real.sqrt (⟨0, 0, 0, 2⟩ : quat ℝ) - 1
      ∧ quatInverse Real.sqrt (⟨0, 0, 0, 2⟩ : quat ℝ) = quatConjugate ⟨0, 0, 0, 2⟩ := by
  have hs : Real.sqrt ((0 : ℝ) + 0 * 0 + 0 * 0 + 0 * 0 + 2 * 2) = 2 := by
    rw [show ((0 : ℝ) + 0 * 0 + 0 * 0 + 0 * 0 + 2 * 2) = 2 ^ 2 by norm_num]
    exact Real.sqrt_sq (by norm_num)
  have hlen : 0.00001 < quatLength Real.sqrt (⟨0, 0, 0, 2⟩ : quat ℝ) - 1 := by
    simp only [quatLength, vec4Length, quat.vec, hs]
    norm_num
  exact ⟨hlen, quatInverse_eq_conjugate_of_long ⟨0, 0, 0, 2⟩ hlen⟩

/-- After the sign correction of `quatSlerp` the dot product is not
negative. -/
theorem slerp_corrected_dot_nonneg (d : ℝ) (a b : quat ℝ) :
    0 ≤ (if d < 0 then (-d, a) else (d, b)).1 := by
  split_ifs with h
  · simp only
    linarith
  · simp only
    linarith

/-- The sine of `acos dot` does not vanish on the spherical branch. -/
theorem sin_arccos_ne_zero (d : ℝ) (h0 : 0 ≤ d) (h1 : d < 0.95) :
    Real.sin (Real.arccos d) ≠ 0 := by
  rw [Real.sin_arccos, Real.sqrt_ne_zero']
  norm_num at h1
  nlinarith

/-- C7: `quatSlerp f l 0 = f` for all quaternions `f` and `l` (unit or not),
on the spherical and on the linear branch, for either sign of the dot
product. -/
theorem quatSlerp_zero (f l : quat ℝ) :
    quatSlerp Real.sqrt Real.arccos Real.sin f l 0 = f := by
  have hnn := slerp_corrected_dot_nonneg (vec4Dot f.vec l.vec) (quatInverse Real.sqrt l) l
  obtain ⟨fx, fy, fz, fw⟩ := f
  simp only [quatSlerp]
  generalize (if vec4Dot (quat.vec ⟨fx, fy, fz, fw⟩) l.vec < 0
    then (-vec4Dot (quat.vec ⟨fx, fy, fz, fw⟩) l.vec, quatInverse Real.sqrt l)
    else (vec4Dot (quat.vec ⟨fx, fy, fz, fw⟩) l.vec, l)) = s at hnn
  obtain ⟨d, q⟩ := s
  simp only at hnn
  split_ifs with hd
  · have hsin := sin_arccos_ne_zero d hnn hd
    simp [quatMulScalar, quatAdd, vec4MulScalar, vec4Add, quat.vec, quat.ofVec4, hsin]
  · simp [vec4Lerp, vec4Sub, vec4MulScalar, vec4Add, quat.vec, quat.ofVec4]

/-- What `quatSlerp` stores at `t = 1`: `l` when the dot product is not
negative, `quatInverse l` when it is. -/
theorem quatSlerp_one (f l : quat ℝ) :
    quatSlerp Real.sqrt Real.arccos Real.sin f l 1
      = if vec4Dot f.vec l.vec < 0 then quatInverse Real.sqrt l else l := by
  have hnn := slerp_corrected_dot_nonneg (vec4Dot f.vec l.vec) (quatInverse Real.sqrt l) l
  have key : ∀ (d : ℝ) (q : quat ℝ), 0 ≤ d →
      (if d < 0.95 then
          quatMulScalar
            (quatAdd (quatMulScalar f (Real.sin (Real.arccos d * (1 - 1))))
              (quatMulScalar q (Real.sin (Real.arccos d * 1))))
            (1 / Real.sin (Real.arccos d))
        else quat.ofVec4 (vec4Lerp f.vec q.vec 1)) = q := by
    intro d q hd0
    obtain ⟨qx, qy, qz, qw⟩ := q
    split_ifs with hd
    · have hsin := sin_arccos_ne_zero d hd0 hd
      simp [quatMulScalar, quatAdd, vec4MulScalar, vec4Add, quat.vec, quat.ofVec4, hsin]
    · simp [vec4Lerp, vec4Sub, vec4MulScalar, vec4Add, quat.vec, quat.ofVec4]
  simp only [quatSlerp]
  rw [key _ _ hnn]
  split_ifs <;> rfl

/-- C6 at `f = (1/2, 1/2, 1/2, 1/2)`, `l = (-1/2, -1/2, -1/2, 1/2)`: both have
unit length and their dot product is `-1/2 < 0`, so `quatSlerp` replaces `l`
by `quatInverse l`, the conjugate `(1/2, 1/2, 1/2, 1/2)`, and at `t = 1`
returns that conjugate: the result is `f` itself, neither `l` nor
`quatNegate l`. -/
theorem quatSlerp_one_negative_dot :
    (1 / 2 : ℝ) ^ 2 + (1 / 2 : ℝ) ^ 2 + (1 / 2 : ℝ) ^ 2 + (1 / 2 : ℝ) ^ 2 = 1
      ∧ (-(1 / 2) : ℝ) ^ 2 + (-(1 / 2) : ℝ) ^ 2 + (-(1 / 2) : ℝ) ^ 2 + (1 / 2 : ℝ) ^ 2 = 1
      ∧ vec4Dot (quat.vec (⟨1 / 2, 1 / 2, 1 / 2, 1 / 2⟩ : quat ℝ))
          (quat.vec ⟨-(1 / 2), -(1 / 2), -(1 / 2), 1 / 2⟩) < 0
      ∧ quatSlerp Real.sqrt Real.arccos Real.sin (⟨1 / 2, 1 / 2, 1 / 2, 1 / 2⟩ : quat ℝ)
          ⟨-(1 / 2), -(1 / 2), -(1 / 2), 1 / 2⟩ 1 = ⟨1 / 2, 1 / 2, 1 / 2, 1 / 2⟩
      ∧ quatSlerp Real.sqrt Real.arccos Real.sin (⟨1 / 2, 1 / 2, 1 / 2, 1 / 2⟩ : quat ℝ)
          ⟨-(1 / 2), -(1 / 2), -(1 / 2), 1 / 2⟩ 1 ≠ ⟨-(1 / 2), -(1 / 2), -(1 / 2), 1 / 2⟩
      ∧ quatSlerp Real.sqrt Real.arccos Real.sin (⟨1 / 2, 1 / 2, 1 / 2, 1 / 2⟩ : quat ℝ)
          ⟨-(1 / 2), -(1 / 2), -(1 / 2), 1 / 2⟩ 1
          ≠ quatNegate ⟨-(1 / 2), -(1 / 2), -(1 / 2), 1 / 2⟩ := by
  have hdot : vec4Dot (quat.vec (⟨1 / 2, 1 / 2, 1 / 2, 1 / 2⟩ : quat ℝ))
      (quat.vec ⟨-(1 / 2), -(1 / 2), -(1 / 2), 1 / 2⟩) = -(1 / 2) := by
    norm_num [vec4Dot, quat.vec]
  have hlen : (0 : ℝ) + -(1 / 2) * -(1 / 2) + -(1 / 2) * -(1 / 2) + -(1 / 2) * -(1 / 2)
      + 1 / 2 * (1 / 2) = 1 := by norm_num
  have hinv : quatInverse Real.sqrt (⟨-(1 / 2), -(1 / 2), -(1 / 2), 1 / 2⟩ : quat ℝ)
      = ⟨1 / 2, 1 / 2, 1 / 2, 1 / 2⟩ := by
    simp only [quatInverse, quatLength, vec4Length, quat.vec, quatConjugate, hlen,
      Real.sqrt_one]
    norm_num
  have hsin : Real.sin (Real.arccos (2⁻¹ : ℝ)) ≠ 0 :=
    sin_arccos_ne_zero 2⁻¹ (by norm_num) (by norm_num)
  have hval : quatSlerp Real.sqrt Real.arccos Real.sin (⟨1 / 2, 1 / 2, 1 / 2, 1 / 2⟩ : quat ℝ)
      ⟨-(1 / 2), -(1 / 2), -(1 / 2), 1 / 2⟩ 1 = ⟨1 / 2, 1 / 2, 1 / 2, 1 / 2⟩ := by
    simp only [quatSlerp, hdot, hinv]
    rw [if_pos (by norm_num : (-(1 / 2) : ℝ) < 0)]
    simp only [neg_neg]
    rw [if_pos (by norm_num : (1 / 2 : ℝ) < 0.95)]
    simp [quatMulScalar, quatAdd, vec4MulScalar, vec4Add, quat.vec, quat.ofVec4, hsin]
  refine ⟨by norm_num, by norm_num, by rw [hdot]; norm_num, hval, ?_, ?_⟩
  · rw [hval]
    simp only [ne_eq, quat.mk.injEq, not_and]
    norm_num
  · rw [hval]
    simp only [quatNegate, ne_eq, quat.mk.injEq, not_and]
    norm_num

/-- On the spherical branch with a unit `f`, the dot product of `f` with the
interpolated quaternion is `cos (acos dot * t)`. -/
theorem vec4Dot_quatSlerp (f l : quat ℝ) (t : ℝ)
    (hf : f.x ^ 2 + f.y ^ 2 + f.z ^ 2 + f.w ^ 2 = 1)
    (hd0 : 0 ≤ vec4Dot f.vec l.vec) (hd1 : vec4Dot f.vec l.vec < 0.95) :
    vec4Dot f.vec (quatSlerp Real.sqrt Real.arccos Real.sin f l t).vec
      = Real.cos (Real.arccos (vec4Dot f.vec l.vec) * t) := by
  have hsin := sin_arccos_ne_zero _ hd0 hd1
  have hcos : Real.cos (Real.arccos (vec4Dot f.vec l.vec)) = vec4Dot f.vec l.vec := by
    apply Real.cos_arccos
    · linarith
    · norm_num at hd1
      linarith
  have hsub : Real.sin (Real.arccos (vec4Dot f.vec l.vec) * (1 - t))
      = Real.sin (Real.arccos (vec4Dot f.vec l.vec))
          * Real.cos (Real.arccos (vec4Dot f.vec l.vec) * t)
        - vec4Dot f.vec l.vec * Real.sin (Real.arccos (vec4Dot f.vec l.vec) * t) := by
    rw [show Real.arccos (vec4Dot f.vec l.vec) * (1 - t)
        = Real.arccos (vec4Dot f.vec l.vec) - Real.arccos (vec4Dot f.vec l.vec) * t by ring,
      Real.sin_sub, hcos]
  simp only [quatSlerp]
  rw [if_neg (not_lt.mpr hd0)]
  simp only
  rw [if_pos hd1, hsub]
  generalize Real.arccos (vec4Dot f.vec l.vec) = θ at hsin ⊢
  obtain ⟨fx, fy, fz, fw⟩ := f
  obtain ⟨lx, ly, lz, lw⟩ := l
  simp only [vec4Dot, quatMulScalar, quatAdd, vec4MulScalar, vec4Add, quat.vec, quat.ofVec4]
    at hsin ⊢
  simp only at hf
  field_simp
  linear_combination (Real.sin θ * Real.cos (θ * t)
    - (fx * lx + fy * ly + fz * lz + fw * lw) * Real.sin (θ * t)) * hf

/-- C8: for unit `f` and `l` with `0 ≤ vec4Dot f l < 0.95`, the angle
`arccos (vec4Dot f (quatSlerp f l t))` is non-decreasing in `t` on `[0, 1]`. -/
theorem quatSlerp_angle_mono (f l : quat ℝ) (t1 t2 : ℝ)
    (hf : f.x ^ 2 + f.y ^ 2 + f.z ^ 2 + f.w ^ 2 = 1)
    (hl : l.x ^ 2 + l.y ^ 2 + l.z ^ 2 + l.w ^ 2 = 1)
    (hd0 : 0 ≤ vec4Dot f.vec l.vec) (hd1 : vec4Dot f.vec l.vec < 0.95)
    (h0 : 0 ≤ t1) (h12 : t1 ≤ t2) (h1 : t2 ≤ 1) :
    Real.arccos (vec4Dot f.vec (quatSlerp Real.sqrt Real.arccos Real.sin f l t1).vec)
      ≤ Real.arccos (vec4Dot f.vec (quatSlerp Real.sqrt Real.arccos Real.sin f l t2).vec) := by
  have _ := hl
  rw [vec4Dot_quatSlerp f l t1 hf hd0 hd1, vec4Dot_quatSlerp f l t2 hf hd0 hd1]
  have hθ0 := Real.arccos_nonneg (vec4Dot f.vec l.vec)
  have hθπ := Real.arccos_le_pi (vec4Dot f.vec l.vec)
  have hb : ∀ t : ℝ, 0 ≤ t → t ≤ 1 →
      Real.arccos (Real.cos (Real.arccos (vec4Dot f.vec l.vec) * t))
        = Real.arccos (vec4Dot f.vec l.vec) * t := by
    intro t ht0 ht1
    apply Real.arccos_cos
    · exact mul_nonneg hθ0 ht0
    · calc Real.arccos (vec4Dot f.vec l.vec) * t
          ≤ Real.arccos (vec4Dot f.vec l.vec) * 1 := mul_le_mul_of_nonneg_left ht1 hθ0
        _ ≤ Real.pi := by rw [mul_one]; exact hθπ
  rw [hb t1 h0 (le_trans h12 h1), hb t2 (le_trans h0 h12) h1]
  exact mul_le_mul_of_nonneg_left h12 hθ0

/-- C8 at `f = (0, 0, 0, 1)`, `l = (1, 0, 0, 0)` (dot product 0), `t1 = 0`,
`t2 = 1`. -/
theorem quatSlerp_angle_mono_witness :
    ((0 : ℝ) ^ 2 + (0 : ℝ) ^ 2 + (0 : ℝ) ^ 2 + (1 : ℝ) ^ 2 = 1
        ∧ (1 : ℝ) ^ 2 + (0 : ℝ) ^ 2 + (0 : ℝ) ^ 2 + (0 : ℝ) ^ 2 = 1
        ∧ 0 ≤ vec4Dot (quat.vec (⟨0, 0, 0, 1⟩ : quat ℝ)) (quat.vec ⟨1, 0, 0, 0⟩)
        ∧ vec4Dot (quat.vec (⟨0, 0, 0, 1⟩ : quat ℝ)) (quat.vec ⟨1, 0, 0, 0⟩) < 0.95
        ∧ (0 : ℝ) ≤ 0 ∧ (0 : ℝ) ≤ 1 ∧ (1 : ℝ) ≤ 1)
      ∧ Real.arccos (vec4Dot (quat.vec (⟨0, 0, 0, 1⟩ : quat ℝ))
            (quatSlerp Real.sqrt Real.arccos Real.sin ⟨0, 0, 0, 1⟩ ⟨1, 0, 0, 0⟩ 0).vec)
          ≤ Real.arccos (vec4Dot (quat.vec (⟨0, 0, 0, 1⟩ : quat ℝ))
            (quatSlerp Real.sqrt Real.arccos Real.sin ⟨0, 0, 0, 1⟩ ⟨1, 0, 0, 0⟩ 1).vec) := by
  have hd0 : 0 ≤ vec4Dot (quat.vec (⟨0, 0, 0, 1⟩ : quat ℝ)) (quat.vec ⟨1, 0, 0, 0⟩) := by
    norm_num [vec4Dot, quat.vec]
  have hd1 : vec4Dot (quat.vec (⟨0, 0, 0, 1⟩ : quat ℝ)) (quat.vec ⟨1, 0, 0, 0⟩) < 0.95 := by
    norm_num [vec4Dot, quat.vec]
  exact ⟨⟨by norm_num, by norm_num, hd0, hd1, le_refl 0, zero_le_one, le_refl 1⟩,
    quatSlerp_angle_mono ⟨0, 0, 0, 1⟩ ⟨1, 0, 0, 0⟩ 0 1 (by norm_num) (by norm_num) hd0 hd1
      (le_refl 0) zero_le_one (le_refl 1)⟩

/-- C9: what `quatEuler` computes for a single non-zero angle. The angle in
`e.x` turns about the Y axis, the one in `e.y` about Z and the one in `e.z`
about X; at `θ = π`, `quatEuler (π, 0, 0)` is `(0, 1, 0, 0)` while
`quatAxisAngle vec3XAxis π` is `(1, 0, 0, 0)`. -/
theorem quatEuler_single_angle :
    (∀ θ : ℝ,
        quatEuler Real.cos Real.sin ⟨θ, 0, 0⟩ = quatAxisAngle Real.sin Real.cos vec3YAxis θ
          ∧ quatEuler Real.cos Real.sin ⟨0, θ, 0⟩
              = quatAxisAngle Real.sin Real.cos vec3ZAxis θ
          ∧ quatEuler Real.cos Real.sin ⟨0, 0, θ⟩
              = quatAxisAngle Real.sin Real.cos vec3XAxis θ)
      ∧ quatEuler Real.cos Real.sin ⟨Real.pi, 0, 0⟩ = ⟨0, 1, 0, 0⟩
      ∧ quatAxisAngle Real.sin Real.cos vec3XAxis Real.pi = ⟨1, 0, 0, 0⟩
      ∧ quatEuler Real.cos Real.sin ⟨Real.pi, 0, 0⟩
          ≠ quatAxisAngle Real.sin Real.cos vec3XAxis Real.pi := by
  have hpi : Real.pi * 0.5 = Real.pi / 2 := by
    rw [show (0.5 : ℝ) = 1 / 2 by norm_num]
    ring
  have hE : quatEuler Real.cos Real.sin ⟨Real.pi, 0, 0⟩ = ⟨0, 1, 0, 0⟩ := by
    simp [quatEuler, hpi]
  have hA : quatAxisAngle Real.sin Real.cos vec3XAxis Real.pi = ⟨1, 0, 0, 0⟩ := by
    simp [quatAxisAngle, vec3MulScalar, vec3XAxis, hpi]
  refine ⟨fun θ => ⟨?_, ?_, ?_⟩, hE, hA, ?_⟩
  · simp [quatEuler, quatAxisAngle, vec3MulScalar, vec3YAxis]
  · simp [quatEuler, quatAxisAngle, vec3MulScalar, vec3ZAxis]
  · simp [quatEuler, quatAxisAngle, vec3MulScalar, vec3XAxis]
  · rw [hE, hA]
    simp

/-- C10: for `N = 2, 3, 4`, normalising a vector of non-zero length gives a
vector of length 1, whatever the destination held before. -/
theorem vecNLength_vecNNormalize :
    (∀ dest v : vec2 ℝ, vec2Length Real.sqrt v ≠ 0 →
        vec2Length Real.sqrt (vec2Normalize Real.sqrt dest v) = 1)
      ∧ (∀ dest v : vec3 ℝ, vec3Length Real.sqrt v ≠ 0 →
        vec3Length Real.sqrt (vec3Normalize Real.sqrt dest v) = 1)
      ∧ (∀ dest v : vec4 ℝ, vec4Length Real.sqrt v ≠ 0 →
        vec4Length Real.sqrt (vec4Normalize Real.sqrt dest v) = 1) := by
  refine ⟨?_, ?_, ?_⟩
  · rintro dest ⟨x, y⟩ h
    simp only [vec2Length] at h
    have hs0 : (0 : ℝ) ≤ 0 + x * x + y * y := by
      nlinarith [mul_self_nonneg x, mul_self_nonneg y]
    have hsq := Real.mul_self_sqrt hs0
    simp only [vec2Normalize, vec2Length, if_neg h]
    generalize √(0 + x * x + y * y) = L at h hsq
    rw [Real.sqrt_eq_one]
    field_simp
    linarith
  · rintro dest ⟨x, y, z⟩ h
    simp only [vec3Length] at h
    have hs0 : (0 : ℝ) ≤ 0 + x * x + y * y + z * z := by
      nlinarith [mul_self_nonneg x, mul_self_nonneg y, mul_self_nonneg z]
    have hsq := Real.mul_self_sqrt hs0
    simp only [vec3Normalize, vec3Length, if_neg h]
    generalize √(0 + x * x + y * y + z * z) = L at h hsq
    rw [Real.sqrt_eq_one]
    field_simp
    linarith
  · rintro dest ⟨x, y, z, w⟩ h
    simp only [vec4Length] at h
    have hs0 : (0 : ℝ) ≤ 0 + x * x + y * y + z * z + w * w := by
      nlinarith [mul_self_nonneg x, mul_self_nonneg y, mul_self_nonneg z, mul_self_nonneg w]
    have hsq := Real.mul_self_sqrt hs0
    simp only [vec4Normalize, vec4Length, if_neg h]
    generalize √(0 + x * x + y * y + z * z + w * w) = L at h hsq
    rw [Real.sqrt_eq_one]
    field_simp
    linarith

/-- C10 at `(3, 4)`, `(1, 2, 2)` and `(1, 1, 1, 1)`, of lengths 5, 3 and 2. -/
theorem vecNLength_vecNNormalize_witness :
    (vec2Length Real.sqrt (⟨3, 4⟩ : vec2 ℝ) ≠ 0
        ∧ vec2Length Real.sqrt (vec2Normalize Real.sqrt ⟨0, 0⟩ (⟨3, 4⟩ : vec2 ℝ)) = 1)
      ∧ (vec3Length Real.sqrt (⟨1, 2, 2⟩ : vec3 ℝ) ≠ 0
        ∧ vec3Length Real.sqrt (vec3Normalize Real.sqrt ⟨0, 0, 0⟩ (⟨1, 2, 2⟩ : vec3 ℝ)) = 1)
      ∧ (vec4Length Real.sqrt (⟨1, 1, 1, 1⟩ : vec4 ℝ) ≠ 0
        ∧ vec4Length Real.sqrt
            (vec4Normalize Real.sqrt ⟨0, 0, 0, 0⟩ (⟨1, 1, 1, 1⟩ : vec4 ℝ)) = 1) := by
  have h2 : vec2Length Real.sqrt (⟨3, 4⟩ : vec2 ℝ) ≠ 0 := by
    simp only [vec2Length]
    rw [Real.sqrt_ne_zero']
    norm_num
  have h3 : vec3Length Real.sqrt (⟨1, 2, 2⟩ : vec3 ℝ) ≠ 0 := by
    simp only [vec3Length]
    rw [Real.sqrt_ne_zero']
    norm_num
  have h4 : vec4Length Real.sqrt (⟨1, 1, 1, 1⟩ : vec4 ℝ) ≠ 0 := by
    simp only [vec4Length]
    rw [Real.sqrt_ne_zero']
    norm_num
  exact ⟨⟨h2, vecNLength_vecNNormalize.1 _ _ h2⟩,
    ⟨h3, vecNLength_vecNNormalize.2.1 _ _ h3⟩,
    ⟨h4, vecNLength_vecNNormalize.2.2 _ _ h4⟩⟩

/-- The sum accumulated by `vec3Length` is not negative. -/
theorem sumsq3_nonneg (x y z : ℝ) : 0 ≤ 0 + x * x + y * y + z * z := by
  nlinarith [mul_self_nonneg x, mul_self_nonneg y, mul_self_nonneg z]

/-- The sum accumulated by `vec4Length` is not negative. -/
theorem sumsq4_nonneg (x y z w : ℝ) : 0 ≤ 0 + x * x + y * y + z * z + w * w := by
  nlinarith [mul_self_nonneg x, mul_self_nonneg y, mul_self_nonneg z, mul_self_nonneg w]

/-- C11: for `N = 2, 3, 4` and for `quatNormalize`, a source of length exactly
zero leaves the destination equal to its prior content `d`. -/
theorem vecNNormalize_zero_length_frame :
    (∀ d a : vec2 ℝ, vec2Length Real.sqrt a = 0 → vec2Normalize Real.sqrt d a = d)
      ∧ (∀ d a : vec3 ℝ, vec3Length Real.sqrt a = 0 → vec3Normalize Real.sqrt d a = d)
      ∧ (∀ d a : vec4 ℝ, vec4Length Real.sqrt a = 0 → vec4Normalize Real.sqrt d a = d)
      ∧ (∀ d a : quat ℝ, quatLength Real.sqrt a = 0 → quatNormalize Real.sqrt d a = d) := by
  refine ⟨?_, ?_, ?_, ?_⟩
  · intro d a h
    simp only [vec2Normalize, if_pos h]
  · intro d a h
    simp only [vec3Normalize, if_pos h]
  · intro d a h
    simp only [vec4Normalize, if_pos h]
  · intro d a h
    simp only [quatLength] at h
    simp only [quatNormalize, vec4Normalize, if_pos h]
    cases d
    rfl

/-- C11 at the zero source and the destinations `(1, 2)`, `(1, 2, 3)`,
`(1, 2, 3, 4)` and the quaternion `(1, 2, 3, 4)`. -/
theorem vecNNormalize_zero_length_frame_witness :
    (vec2Length Real.sqrt (⟨0, 0⟩ : vec2 ℝ) = 0
        ∧ vec2Normalize Real.sqrt (⟨1, 2⟩ : vec2 ℝ) ⟨0, 0⟩ = ⟨1, 2⟩)
      ∧ (vec3Length Real.sqrt (⟨0, 0, 0⟩ : vec3 ℝ) = 0
        ∧ vec3Normalize Real.sqrt (⟨1, 2, 3⟩ : vec3 ℝ) ⟨0, 0, 0⟩ = ⟨1, 2, 3⟩)
      ∧ (vec4Length Real.sqrt (⟨0, 0, 0, 0⟩ : vec4 ℝ) = 0
        ∧ vec4Normalize Real.sqrt (⟨1, 2, 3, 4⟩ : vec4 ℝ) ⟨0, 0, 0, 0⟩ = ⟨1, 2, 3, 4⟩)
      ∧ (quatLength Real.sqrt (⟨0, 0, 0, 0⟩ : quat ℝ) = 0
        ∧ quatNormalize Real.sqrt (⟨1, 2, 3, 4⟩ : quat ℝ) ⟨0, 0, 0, 0⟩ = ⟨1, 2, 3, 4⟩) := by
  have h2 : vec2Length Real.sqrt (⟨0, 0⟩ : vec2 ℝ) = 0 := by simp [vec2Length]
  have h3 : vec3Length Real.sqrt (⟨0, 0, 0⟩ : vec3 ℝ) = 0 := by simp [vec3Length]
  have h4 : vec4Length Real.sqrt (⟨0, 0, 0, 0⟩ : vec4 ℝ) = 0 := by simp [vec4Length]
  have hq : quatLength Real.sqrt (⟨0, 0, 0, 0⟩ : quat ℝ) = 0 := by
    simp [quatLength, vec4Length, quat.vec]
  exact ⟨⟨h2, vecNNormalize_zero_length_frame.1 _ _ h2⟩,
    ⟨h3, vecNNormalize_zero_length_frame.2.1 _ _ h3⟩,
    ⟨h4, vecNNormalize_zero_length_frame.2.2.1 _ _ h4⟩,
    ⟨hq, vecNNormalize_zero_length_frame.2.2.2 _ _ hq⟩⟩

/-- C12 as stated fails: with the zero source `(0, 0)` and a destination that
held `(1, 1)`, `vec2Normalize` leaves `(1, 1)` in the destination, which is
not the source. -/
theorem vec2Normalize_zero_counterexample :
    vec2Length Real.sqrt (⟨0, 0⟩ : vec2 ℝ) = 0
      ∧ vec2Normalize Real.sqrt (⟨1, 1⟩ : vec2 ℝ) ⟨0, 0⟩ = ⟨1, 1⟩
      ∧ vec2Normalize Real.sqrt (⟨1, 1⟩ : vec2 ℝ) ⟨0, 0⟩ ≠ ⟨0, 0⟩ := by
  have h2 : vec2Length Real.sqrt (⟨0, 0⟩ : vec2 ℝ) = 0 := by simp [vec2Length]
  have hv : vec2Normalize Real.sqrt (⟨1, 1⟩ : vec2 ℝ) ⟨0, 0⟩ = ⟨1, 1⟩ := by
    simp only [vec2Normalize, if_pos h2]
  refine ⟨h2, hv, ?_⟩
  rw [hv]
  simp

/-- C12 (amended): for `N = 2, 3, 4` and a source `v` of length zero, the
destination equals `v` after the call exactly when it held `v` before it, as
in the in-place call where destination and source are the same object. -/
theorem vecNNormalize_zero_length_eq_source_iff :
    (∀ dest v : vec2 ℝ, vec2Length Real.sqrt v = 0 →
        (vec2Normalize Real.sqrt dest v = v ↔ dest = v))
      ∧ (∀ dest v : vec3 ℝ, vec3Length Real.sqrt v = 0 →
        (vec3Normalize Real.sqrt dest v = v ↔ dest = v))
      ∧ (∀ dest v : vec4 ℝ, vec4Length Real.sqrt v = 0 →
        (vec4Normalize Real.sqrt dest v = v ↔ dest = v)) := by
  refine ⟨?_, ?_, ?_⟩
  · intro dest v h
    simp only [vec2Normalize, if_pos h]
  · intro dest v h
    simp only [vec3Normalize, if_pos h]
  · intro dest v h
    simp only [vec4Normalize, if_pos h]

/-- C12 (amended) at the zero vectors, called in place. -/
theorem vecNNormalize_zero_length_eq_source_iff_witness :
    (vec2Length Real.sqrt (⟨0, 0⟩ : vec2 ℝ) = 0
        ∧ vec2Normalize Real.sqrt (⟨0, 0⟩ : vec2 ℝ) ⟨0, 0⟩ = ⟨0, 0⟩)
      ∧ (vec3Length Real.sqrt (⟨0, 0, 0⟩ : vec3 ℝ) = 0
        ∧ vec3Normalize Real.sqrt (⟨0, 0, 0⟩ : vec3 ℝ) ⟨0, 0, 0⟩ = ⟨0, 0, 0⟩)
      ∧ (vec4Length Real.sqrt (⟨0, 0, 0, 0⟩ : vec4 ℝ) = 0
        ∧ vec4Normalize Real.sqrt (⟨0, 0, 0, 0⟩ : vec4 ℝ) ⟨0, 0, 0, 0⟩ = ⟨0, 0, 0, 0⟩) := by
  have h2 : vec2Length Real.sqrt (⟨0, 0⟩ : vec2 ℝ) = 0 := by simp [vec2Length]
  have h3 : vec3Length Real.sqrt (⟨0, 0, 0⟩ : vec3 ℝ) = 0 := by simp [vec3Length]
  have h4 : vec4Length Real.sqrt (⟨0, 0, 0, 0⟩ : vec4 ℝ) = 0 := by simp [vec4Length]
  exact ⟨⟨h2, (vecNNormalize_zero_length_eq_source_iff.1 _ _ h2).mpr rfl⟩,
    ⟨h3, (vecNNormalize_zero_length_eq_source_iff.2.1 _ _ h3).mpr rfl⟩,
    ⟨h4, (vecNNormalize_zero_length_eq_source_iff.2.2 _ _ h4).mpr rfl⟩⟩

/-- C13: for `N = 2, 3, 4`, `vecNLerp f l 0 = f`, `vecNLerp f l 1 = l`, and for
every `t` (no clamping) the result is `f + (l - f) * t` componentwise. -/
theorem vecNLerp_spec :
    (∀ (f l : vec2 ℝ) (t : ℝ), vec2Lerp f l 0 = f ∧ vec2Lerp f l 1 = l
        ∧ vec2Lerp f l t = ⟨f.x + (l.x - f.x) * t, f.y + (l.y - f.y) * t⟩)
      ∧ (∀ (f l : vec3 ℝ) (t : ℝ), vec3Lerp f l 0 = f ∧ vec3Lerp f l 1 = l
        ∧ vec3Lerp f l t
            = ⟨f.x + (l.x - f.x) * t, f.y + (l.y - f.y) * t, f.z + (l.z - f.z) * t⟩)
      ∧ (∀ (f l : vec4 ℝ) (t : ℝ), vec4Lerp f l 0 = f ∧ vec4Lerp f l 1 = l
        ∧ vec4Lerp f l t
            = ⟨f.x + (l.x - f.x) * t, f.y + (l.y - f.y) * t, f.z + (l.z - f.z) * t,
                f.w + (l.w - f.w) * t⟩) := by
  refine ⟨?_, ?_, ?_⟩
  · rintro ⟨fx, fy⟩ ⟨lx, ly⟩ t
    simp [vec2Lerp, vec2Sub, vec2MulScalar, vec2Add, add_comm]
  · rintro ⟨fx, fy, fz⟩ ⟨lx, ly, lz⟩ t
    simp [vec3Lerp, vec3Sub, vec3MulScalar, vec3Add, add_comm]
  · rintro ⟨fx, fy, fz, fw⟩ ⟨lx, ly, lz, lw⟩ t
    simp [vec4Lerp, vec4Sub, vec4MulScalar, vec4Add, add_comm]

/-- C14: `vec3Cross a b = vec3Negate (vec3Cross b a)`. -/
theorem vec3Cross_antisymm (a b : vec3 ℝ) :
    vec3Cross a b = vec3Negate (vec3Cross b a) := by
  simp only [vec3Cross, vec3Negate, vec3.mk.injEq]
  refine ⟨?_, ?_, ?_⟩ <;> ring

/-- C15: `mat4MulVec4 (mat4Translate t) (p.x, p.y, p.z, 1)` is
`(p.x + t.x, p.y + t.y, p.z + t.z, 1)`: the product applies the matrix as
`v · M`, with the translation in the last row. -/
theorem mat4MulVec4_mat4Translate (t p : vec3 ℝ) :
    mat4MulVec4 (mat4Translate t) ⟨p.x, p.y, p.z, 1⟩
      = ⟨p.x + t.x, p.y + t.y, p.z + t.z, 1⟩ := by
  simp [mat4MulVec4, mat4Translate]

/-- A vector other than `vec3Zero` has a non-zero `vec3Length`. -/
theorem vec3Length_ne_zero (a : vec3 ℝ) (h : a ≠ vec3Zero) : vec3Length Real.sqrt a ≠ 0 := by
  obtain ⟨x, y, z⟩ := a
  simp only [vec3Length]
  rw [Real.sqrt_ne_zero']
  by_contra hs
  apply h
  have hx : x = 0 := by nlinarith [mul_self_nonneg x, mul_self_nonneg y, mul_self_nonneg z]
  have hy : y = 0 := by nlinarith [mul_self_nonneg x, mul_self_nonneg y, mul_self_nonneg z]
  have hz : z = 0 := by nlinarith [mul_self_nonneg x, mul_self_nonneg y, mul_self_nonneg z]
  simp [vec3Zero, hx, hy, hz]

/-- When the length is not zero, `vec3Normalize` stores the source scaled by
`1 / length`, and the squares of the stored components sum to 1. -/
theorem vec3Normalize_of_length_ne_zero (dest a : vec3 ℝ)
    (h : vec3Length Real.sqrt a ≠ 0) :
    vec3Normalize Real.sqrt dest a = vec3MulScalar a (1 / vec3Length Real.sqrt a)
      ∧ (vec3Normalize Real.sqrt dest a).x * (vec3Normalize Real.sqrt dest a).x
          + (vec3Normalize Real.sqrt dest a).y * (vec3Normalize Real.sqrt dest a).y
          + (vec3Normalize Real.sqrt dest a).z * (vec3Normalize Real.sqrt dest a).z = 1 := by
  have heq : vec3Normalize Real.sqrt dest a
      = vec3MulScalar a (1 / vec3Length Real.sqrt a) := by
    simp only [vec3Normalize, if_neg h, vec3MulScalar]
  refine ⟨heq, ?_⟩
  rw [heq]
  obtain ⟨x, y, z⟩ := a
  simp only [vec3Length] at h ⊢
  have hsq := Real.mul_self_sqrt (sumsq3_nonneg x y z)
  simp only [vec3MulScalar]
  generalize √(0 + x * x + y * y + z * z) = L at h hsq
  field_simp
  linarith

/-- The basis of `mat4LookAt` once `z` and `x` are unit and orthogonal: the
normalised `z × x` is `z × x` itself, and `x`, `y`, `z` are orthonormal with
`x × y = z`. -/
theorem lookAt_basis_of_unit (z x yInit : vec3 ℝ)
    (hz : z.x * z.x + z.y * z.y + z.z * z.z = 1)
    (hx : x.x * x.x + x.y * x.y + x.z * x.z = 1)
    (hxz : x.x * z.x + x.y * z.y + x.z * z.z = 0) :
    vec3Length Real.sqrt x = 1
      ∧ vec3Length Real.sqrt (vec3Normalize Real.sqrt yInit (vec3Cross z x)) = 1
      ∧ vec3Length Real.sqrt z = 1
      ∧ vec3Dot x (vec3Normalize Real.sqrt yInit (vec3Cross z x)) = 0
      ∧ vec3Dot (vec3Normalize Real.sqrt yInit (vec3Cross z x)) z = 0
      ∧ vec3Dot x z = 0
      ∧ vec3Cross x (vec3Normalize Real.sqrt yInit (vec3Cross z x)) = z := by
  obtain ⟨z1, z2, z3⟩ := z
  obtain ⟨x1, x2, x3⟩ := x
  simp only at hz hx hxz
  have hv : (0 : ℝ) + (z2 * x3 - z3 * x2) * (z2 * x3 - z3 * x2)
      + (z3 * x1 - z1 * x3) * (z3 * x1 - z1 * x3)
      + (z1 * x2 - z2 * x1) * (z1 * x2 - z2 * x1) = 1 := by
    linear_combination (x1 * x1 + x2 * x2 + x3 * x3) * hz + hx
      - (x1 * z1 + x2 * z2 + x3 * z3) * hxz
  have hLv : vec3Length Real.sqrt (vec3Cross ⟨z1, z2, z3⟩ ⟨x1, x2, x3⟩) = 1 := by
    simp only [vec3Length, vec3Cross, hv, Real.sqrt_one]
  have hy : vec3Normalize Real.sqrt yInit (vec3Cross ⟨z1, z2, z3⟩ ⟨x1, x2, x3⟩)
      = vec3Cross ⟨z1, z2, z3⟩ ⟨x1, x2, x3⟩ := by
    simp only [vec3Normalize, hLv]
    simp
  rw [hy]
  refine ⟨?_, hLv, ?_, ?_, ?_, ?_, ?_⟩
  · simp only [vec3Length]
    rw [show (0 : ℝ) + x1 * x1 + x2 * x2 + x3 * x3 = 1 by linarith, Real.sqrt_one]
  · simp only [vec3Length]
    rw [show (0 : ℝ) + z1 * z1 + z2 * z2 + z3 * z3 = 1 by linarith, Real.sqrt_one]
  · simp only [vec3Dot, vec3Cross]
    ring
  · simp only [vec3Dot, vec3Cross]
    ring
  · simp only [vec3Dot]
    linarith
  · simp only [vec3Cross, vec3.mk.injEq]
    refine ⟨?_, ?_, ?_⟩
    · linear_combination z1 * hx - x1 * hxz
    · linear_combination z2 * hx - x2 * hxz
    · linear_combination z3 * hx - x3 * hxz

/-- C16: for `center ≠ eye` and `up × (center - eye) ≠ 0`, the vectors
`x = (x0, x1, x2)`, `y = (y0, y1, y2)`, `z = (z0, z1, z2)` in the columns of the
upper-left block of `mat4LookAt` have unit length, are pairwise orthogonal,
are `z = normalize (center - eye)`, `x = normalize (up × z)`,
`y = normalize (z × x)`, and satisfy `x × y = z`. -/
theorem mat4LookAt_basis (zInit xInit yInit eye center up : vec3 ℝ)
    (hce : center ≠ eye) (hup : vec3Cross up (vec3Sub center eye) ≠ vec3Zero) :
    let M := mat4LookAt Real.sqrt zInit xInit yInit eye center up
    let x : vec3 ℝ := ⟨M.x0, M.x1, M.x2⟩
    let y : vec3 ℝ := ⟨M.y0, M.y1, M.y2⟩
    let z : vec3 ℝ := ⟨M.z0, M.z1, M.z2⟩
    vec3Length Real.sqrt x = 1 ∧ vec3Length Real.sqrt y = 1 ∧ vec3Length Real.sqrt z = 1
      ∧ vec3Dot x y = 0 ∧ vec3Dot y z = 0 ∧ vec3Dot x z = 0
      ∧ z = vec3Normalize Real.sqrt zInit (vec3Sub center eye)
      ∧ x = vec3Normalize Real.sqrt xInit (vec3Cross up z)
      ∧ y = vec3Normalize Real.sqrt yInit (vec3Cross z x)
      ∧ vec3Cross x y = z := by
  have hd : vec3Sub center eye ≠ vec3Zero := by
    intro h
    apply hce
    obtain ⟨c1, c2, c3⟩ := center
    obtain ⟨e1, e2, e3⟩ := eye
    simp only [vec3Sub, vec3Zero, vec3.mk.injEq] at h
    obtain ⟨h1, h2, h3⟩ := h
    simp only [vec3.mk.injEq]
    exact ⟨by linarith, by linarith, by linarith⟩
  have hLd := vec3Length_ne_zero _ hd
  obtain ⟨hzeq, hz1⟩ := vec3Normalize_of_length_ne_zero zInit _ hLd
  have hu : vec3Cross up (vec3Normalize Real.sqrt zInit (vec3Sub center eye)) ≠ vec3Zero := by
    rw [hzeq]
    intro h
    apply hup
    have hk : 1 / vec3Length Real.sqrt (vec3Sub center eye) ≠ 0 := one_div_ne_zero hLd
    generalize 1 / vec3Length Real.sqrt (vec3Sub center eye) = k at h hk
    generalize vec3Sub center eye = d at h
    obtain ⟨d1, d2, d3⟩ := d
    obtain ⟨u1, u2, u3⟩ := up
    simp only [vec3Cross, vec3MulScalar, vec3Zero, vec3.mk.injEq] at h ⊢
    obtain ⟨h1, h2, h3⟩ := h
    refine ⟨?_, ?_, ?_⟩
    · have : k * (u2 * d3 - u3 * d2) = 0 := by linarith
      rcases mul_eq_zero.mp this with hk0 | h0
      · exact absurd hk0 hk
      · exact h0
    · have : k * (u3 * d1 - u1 * d3) = 0 := by linarith
      rcases mul_eq_zero.mp this with hk0 | h0
      · exact absurd hk0 hk
      · exact h0
    · have : k * (u1 * d2 - u2 * d1) = 0 := by linarith
      rcases mul_eq_zero.mp this with hk0 | h0
      · exact absurd hk0 hk
      · exact h0
  have hLu := vec3Length_ne_zero _ hu
  obtain ⟨hxeq, hx1⟩ := vec3Normalize_of_length_ne_zero xInit _ hLu
  have hxz : (vec3Normalize Real.sqrt xInit
        (vec3Cross up (vec3Normalize Real.sqrt zInit (vec3Sub center eye)))).x
        * (vec3Normalize Real.sqrt zInit (vec3Sub center eye)).x
      + (vec3Normalize Real.sqrt xInit
        (vec3Cross up (vec3Normalize Real.sqrt zInit (vec3Sub center eye)))).y
        * (vec3Normalize Real.sqrt zInit (vec3Sub center eye)).y
      + (vec3Normalize Real.sqrt xInit
        (vec3Cross up (vec3Normalize Real.sqrt zInit (vec3Sub center eye)))).z
        * (vec3Normalize Real.sqrt zInit (vec3Sub center eye)).z = 0 := by
    rw [hxeq]
    simp only [vec3MulScalar, vec3Cross]
    ring
  have core := lookAt_basis_of_unit _ _ yInit hz1 hx1 hxz
  obtain ⟨c1, c2, c3, c4, c5, c6, c7⟩ := core
  exact ⟨c1, c2, c3, c4, c5, c6, rfl, rfl, rfl, c7⟩

/-- C16 at `eye = (0, 0, 0)`, `center = (0, 0, 1)`, `up = (0, 1, 0)`. -/
theorem mat4LookAt_basis_witness :
    ((⟨0, 0, 1⟩ : vec3 ℝ) ≠ ⟨0, 0, 0⟩
        ∧ vec3Cross (⟨0, 1, 0⟩ : vec3 ℝ) (vec3Sub ⟨0, 0, 1⟩ ⟨0, 0, 0⟩) ≠ vec3Zero)
      ∧ (let M := mat4LookAt Real.sqrt (⟨0, 0, 0⟩ : vec3 ℝ) ⟨0, 0, 0⟩ ⟨0, 0, 0⟩
            ⟨0, 0, 0⟩ ⟨0, 0, 1⟩ ⟨0, 1, 0⟩
          let x : vec3 ℝ := ⟨M.x0, M.x1, M.x2⟩
          let y : vec3 ℝ := ⟨M.y0, M.y1, M.y2⟩
          let z : vec3 ℝ := ⟨M.z0, M.z1, M.z2⟩
          vec3Length Real.sqrt x = 1 ∧ vec3Length Real.sqrt y = 1
            ∧ vec3Length Real.sqrt z = 1
            ∧ vec3Dot x y = 0 ∧ vec3Dot y z = 0 ∧ vec3Dot x z = 0
            ∧ z = vec3Normalize Real.sqrt ⟨0, 0, 0⟩ (vec3Sub ⟨0, 0, 1⟩ ⟨0, 0, 0⟩)
            ∧ x = vec3Normalize Real.sqrt ⟨0, 0, 0⟩ (vec3Cross ⟨0, 1, 0⟩ z)
            ∧ y = vec3Normalize Real.sqrt ⟨0, 0, 0⟩ (vec3Cross z x)
            ∧ vec3Cross x y = z) := by
  have h1 : (⟨0, 0, 1⟩ : vec3 ℝ) ≠ ⟨0, 0, 0⟩ := by simp
  have h2 : vec3Cross (⟨0, 1, 0⟩ : vec3 ℝ) (vec3Sub ⟨0, 0, 1⟩ ⟨0, 0, 0⟩) ≠ vec3Zero := by
    simp [vec3Cross, vec3Sub, vec3Zero]
  exact ⟨⟨h1, h2⟩, mat4LookAt_basis ⟨0, 0, 0⟩ ⟨0, 0, 0⟩ ⟨0, 0, 0⟩ ⟨0, 0, 0⟩ ⟨0, 0, 1⟩ ⟨0, 1, 0⟩
    h1 h2⟩

/-- Whatever objects `dest`, `f` and `l` are, the same or not, `vec2LerpAt` leaves
in `dest` the value `vec2Lerp` computes from the original `f` and `l`. -/
theorem vec2LerpAt_dest {P : Type} [DecidableEq P] (g1 g2 : vec2 ℝ) (m : P → vec2 ℝ)
    (dest f l : P) (t : ℝ) :
    vec2LerpAt g1 g2 m dest f l t dest = vec2Lerp (m f) (m l) t := by
  by_cases h : f = dest
  · subst h
    simp [vec2LerpAt, vec2SubAt, vec2MulScalarAt, vec2AddAt, vec2Lerp, vec2Sub,
      vec2MulScalar, vec2Add, Function.update]
  · simp [vec2LerpAt, vec2SubAt, vec2MulScalarAt, vec2AddAt, vec2Lerp, vec2Sub,
      vec2MulScalar, vec2Add, Function.update, h]

/-- Whatever objects `dest`, `f` and `l` are, the same or not, `vec3LerpAt` leaves
in `dest` the value `vec3Lerp` computes from the original `f` and `l`. -/
theorem vec3LerpAt_dest {P : Type} [DecidableEq P] (g1 g2 : vec3 ℝ) (m : P → vec3 ℝ)
    (dest f l : P) (t : ℝ) :
    vec3LerpAt g1 g2 m dest f l t dest = vec3Lerp (m f) (m l) t := by
  by_cases h : f = dest
  · subst h
    simp [vec3LerpAt, vec3SubAt, vec3MulScalarAt, vec3AddAt, vec3Lerp, vec3Sub,
      vec3MulScalar, vec3Add, Function.update]
  · simp [vec3LerpAt, vec3SubAt, vec3MulScalarAt, vec3AddAt, vec3Lerp, vec3Sub,
      vec3MulScalar, vec3Add, Function.update, h]

/-- Whatever objects `dest`, `f` and `l` are, the same or not, `vec4LerpAt` leaves
in `dest` the value `vec4Lerp` computes from the original `f` and `l`. -/
theorem vec4LerpAt_dest {P : Type} [DecidableEq P] (g1 g2 : vec4 ℝ) (m : P → vec4 ℝ)
    (dest f l : P) (t : ℝ) :
    vec4LerpAt g1 g2 m dest f l t dest = vec4Lerp (m f) (m l) t := by
  by_cases h : f = dest
  · subst h
    simp [vec4LerpAt, vec4SubAt, vec4MulScalarAt, vec4AddAt, vec4Lerp, vec4Sub,
      vec4MulScalar, vec4Add, Function.update]
  · simp [vec4LerpAt, vec4SubAt, vec4MulScalarAt, vec4AddAt, vec4Lerp, vec4Sub,
      vec4MulScalar, vec4Add, Function.update, h]

/-- C17: for `N = 2, 3, 4`, `vecNLerp` called with the destination being the
same object as `f`, or the same object as `l`, leaves in it the value that
`vecNLerp` computes into a separate destination from the original `f` and
`l`. -/
theorem vecNLerpAt_in_place {P : Type} [DecidableEq P] (f l : P) (t : ℝ) :
    (∀ (g1 g2 : vec2 ℝ) (m : P → vec2 ℝ),
        vec2LerpAt g1 g2 m f f l t f = vec2Lerp (m f) (m l) t
          ∧ vec2LerpAt g1 g2 m l f l t l = vec2Lerp (m f) (m l) t)
      ∧ (∀ (g1 g2 : vec3 ℝ) (m : P → vec3 ℝ),
        vec3LerpAt g1 g2 m f f l t f = vec3Lerp (m f) (m l) t
          ∧ vec3LerpAt g1 g2 m l f l t l = vec3Lerp (m f) (m l) t)
      ∧ (∀ (g1 g2 : vec4 ℝ) (m : P → vec4 ℝ),
        vec4LerpAt g1 g2 m f f l t f = vec4Lerp (m f) (m l) t
          ∧ vec4LerpAt g1 g2 m l f l t l = vec4Lerp (m f) (m l) t) :=
  ⟨fun g1 g2 m => ⟨vec2LerpAt_dest g1 g2 m f f l t, vec2LerpAt_dest g1 g2 m l f l t⟩,
    fun g1 g2 m => ⟨vec3LerpAt_dest g1 g2 m f f l t, vec3LerpAt_dest g1 g2 m l f l t⟩,
    fun g1 g2 m => ⟨vec4LerpAt_dest g1 g2 m f f l t, vec4LerpAt_dest g1 g2 m l f l t⟩⟩

/-- With a destination that is neither `a` nor `b`, `vec3CrossAt` leaves in it
the value of `vec3Cross`. -/
theorem vec3CrossAt_separate {P : Type} [DecidableEq P] (m : P → vec3 ℝ) (dest a b : P)
    (ha : dest ≠ a) (hb : dest ≠ b) :
    vec3CrossAt m dest a b dest = vec3Cross (m a) (m b) := by
  simp [vec3CrossAt, vec3Cross, Function.update, Ne.symm ha, Ne.symm hb]

/-- With the destination being the object `a` (and `b` another object),
`vec3CrossAt` computes `y` from the new `x`, and `z` from the new `x` and
`y`. -/
theorem vec3CrossAt_alias_left {P : Type} [DecidableEq P] (m : P → vec3 ℝ) (a b : P)
    (hab : a ≠ b) :
    vec3CrossAt m a a b a
      = ⟨(m a).y * (m b).z - (m a).z * (m b).y,
         (m a).z * (m b).x - ((m a).y * (m b).z - (m a).z * (m b).y) * (m b).z,
         ((m a).y * (m b).z - (m a).z * (m b).y) * (m b).y
           - ((m a).z * (m b).x - ((m a).y * (m b).z - (m a).z * (m b).y) * (m b).z)
             * (m b).x⟩ := by
  simp [vec3CrossAt, Function.update, Ne.symm hab]

/-- With the destination being the object `b` (and `a` another object),
`vec3CrossAt` computes `y` from the new `x`, and `z` from the new `x` and
`y`. -/
theorem vec3CrossAt_alias_right {P : Type} [DecidableEq P] (m : P → vec3 ℝ) (a b : P)
    (hab : a ≠ b) :
    vec3CrossAt m b a b b
      = ⟨(m a).y * (m b).z - (m a).z * (m b).y,
         (m a).z * ((m a).y * (m b).z - (m a).z * (m b).y) - (m a).x * (m b).z,
         (m a).x * ((m a).z * ((m a).y * (m b).z - (m a).z * (m b).y) - (m a).x * (m b).z)
           - (m a).y * ((m a).y * (m b).z - (m a).z * (m b).y)⟩ := by
  simp [vec3CrossAt, Function.update, hab]

/-- C18 as stated fails: with `a = (1, 0, 0)` and `b = (0, 1, 0)` as the objects
at the addresses `false` and `true`, the cross product is `(0, 0, 1)`, but
`vec3Cross` called with the destination being `a`, and called with the
destination being `b`, leaves `(0, 0, 0)` there. -/
theorem vec3CrossAt_in_place_counterexample :
    vec3Cross (⟨1, 0, 0⟩ : vec3 ℝ) ⟨0, 1, 0⟩ = ⟨0, 0, 1⟩
      ∧ vec3CrossAt (fun p : Bool => if p then (⟨0, 1, 0⟩ : vec3 ℝ) else ⟨1, 0, 0⟩)
          false false true false = ⟨0, 0, 0⟩
      ∧ vec3CrossAt (fun p : Bool => if p then (⟨0, 1, 0⟩ : vec3 ℝ) else ⟨1, 0, 0⟩)
          true false true true = ⟨0, 0, 0⟩
      ∧ vec3CrossAt (fun p : Bool => if p then (⟨0, 1, 0⟩ : vec3 ℝ) else ⟨1, 0, 0⟩)
          false false true false ≠ vec3Cross ⟨1, 0, 0⟩ ⟨0, 1, 0⟩
      ∧ vec3CrossAt (fun p : Bool => if p then (⟨0, 1, 0⟩ : vec3 ℝ) else ⟨1, 0, 0⟩)
          true false true true ≠ vec3Cross ⟨1, 0, 0⟩ ⟨0, 1, 0⟩ := by
  have hc : vec3Cross (⟨1, 0, 0⟩ : vec3 ℝ) ⟨0, 1, 0⟩ = ⟨0, 0, 1⟩ := by
    simp [vec3Cross]
  have hl : vec3CrossAt (fun p : Bool => if p then (⟨0, 1, 0⟩ : vec3 ℝ) else ⟨1, 0, 0⟩)
      false false true false = ⟨0, 0, 0⟩ := by
    rw [vec3CrossAt_alias_left _ _ _ (by decide)]
    simp
  have hr : vec3CrossAt (fun p : Bool => if p then (⟨0, 1, 0⟩ : vec3 ℝ) else ⟨1, 0, 0⟩)
      true false true true = ⟨0, 0, 0⟩ := by
    rw [vec3CrossAt_alias_right _ _ _ (by decide)]
    simp
  refine ⟨hc, hl, hr, ?_, ?_⟩
  · rw [hl, hc]
    simp
  · rw [hr, hc]
    simp

/-- C18 (amended): `vec3Cross` leaves the cross product of `a` and `b` in a
destination that is neither `a` nor `b`; with the destination being `a`, or
being `b`, the first component written, `x`, is that of the cross product of
the original `a` and `b`, and `y` and `z` are computed from the components
already overwritten. -/
theorem vec3CrossAt_spec {P : Type} [DecidableEq P] (m : P → vec3 ℝ) (a b : P) :
    (∀ dest : P, dest ≠ a → dest ≠ b → vec3CrossAt m dest a b dest = vec3Cross (m a) (m b))
      ∧ (a ≠ b →
          (vec3CrossAt m a a b a).x = (vec3Cross (m a) (m b)).x
            ∧ (vec3CrossAt m a a b a).y
                = (m a).z * (m b).x - (vec3CrossAt m a a b a).x * (m b).z
            ∧ (vec3CrossAt m a a b a).z
                = (vec3CrossAt m a a b a).x * (m b).y - (vec3CrossAt m a a b a).y * (m b).x)
      ∧ (a ≠ b →
          (vec3CrossAt m b a b b).x = (vec3Cross (m a) (m b)).x
            ∧ (vec3CrossAt m b a b b).y
                = (m a).z * (vec3CrossAt m b a b b).x - (m a).x * (m b).z
            ∧ (vec3CrossAt m b a b b).z
                = (m a).x * (vec3CrossAt m b a b b).y - (m a).y * (vec3CrossAt m b a b b).x) := by
  refine ⟨fun dest ha hb => vec3CrossAt_separate m dest a b ha hb, fun hab => ?_, fun hab => ?_⟩
  · rw [vec3CrossAt_alias_left m a b hab]
    simp [vec3Cross]
  · rw [vec3CrossAt_alias_right m a b hab]
    simp [vec3Cross]

/-- C18 (amended) with `a = (1, 2, 3)` at the address `0`, `b = (4, 5, 6)` at the
address `1` and a separate destination at the address `2`. -/
theorem vec3CrossAt_spec_witness :
    ((2 : Nat) ≠ 0 ∧ (2 : Nat) ≠ 1 ∧ (0 : Nat) ≠ 1)
      ∧ vec3CrossAt (fun p : Nat => if p = 0 then (⟨1, 2, 3⟩ : vec3 ℝ) else ⟨4, 5, 6⟩) 2 0 1 2
          = vec3Cross (⟨1, 2, 3⟩ : vec3 ℝ) ⟨4, 5, 6⟩
      ∧ (vec3CrossAt (fun p : Nat => if p = 0 then (⟨1, 2, 3⟩ : vec3 ℝ) else ⟨4, 5, 6⟩)
          0 0 1 0).x = (vec3Cross (⟨1, 2, 3⟩ : vec3 ℝ) ⟨4, 5, 6⟩).x
      ∧ (vec3CrossAt (fun p : Nat => if p = 0 then (⟨1, 2, 3⟩ : vec3 ℝ) else ⟨4, 5, 6⟩)
          1 0 1 1).x = (vec3Cross (⟨1, 2, 3⟩ : vec3 ℝ) ⟨4, 5, 6⟩).x :=
  ⟨⟨by decide, by decide, by decide⟩,
    (vec3CrossAt_spec (fun p : Nat => if p = 0 then (⟨1, 2, 3⟩ : vec3 ℝ) else ⟨4, 5, 6⟩)
      0 1).1 2 (by decide) (by decide),
    ((vec3CrossAt_spec (fun p : Nat => if p = 0 then (⟨1, 2, 3⟩ : vec3 ℝ) else ⟨4, 5, 6⟩)
      0 1).2.1 (by decide)).1,
    ((vec3CrossAt_spec (fun p : Nat => if p = 0 then (⟨1, 2, 3⟩ : vec3 ℝ) else ⟨4, 5, 6⟩)
      0 1).2.2 (by decide)).1⟩

/-- An invariant kept by every step of a loop holds after the loop. -/
theorem foldl_invariant {σ ι : Type} (Inv : σ → Prop) (f : σ → ι → σ)
    (hstep : ∀ s i, Inv s → Inv (f s i)) (L : List ι) (s : σ) (h : Inv s) :
    Inv (L.foldl f s) := by
  induction L generalizing s with
  | nil => exact h
  | cons i L ih => exact ih _ (hstep s i h)

/-- A loop whose every step leaves the objects `a` and `b` as they are and adds
a contribution to each cell of `dest` has added, at the end, the sum of the
contributions. -/
theorem foldl_adds {P ι : Type} {n : Nat} (dest a b : P) (A B : matN n ℝ)
    (f : (P → matN n ℝ) → ι → (P → matN n ℝ)) (g : ι → matN n ℝ)
    (hstep : ∀ s i, s a = A → s b = B →
      (f s i) a = A ∧ (f s i) b = B ∧ ∀ r c, (f s i) dest r c = s dest r c + g i r c)
    (L : List ι) (s : P → matN n ℝ) (ha : s a = A) (hb : s b = B) :
    (L.foldl f s) a = A ∧ (L.foldl f s) b = B
      ∧ ∀ r c, (L.foldl f s) dest r c = s dest r c + (L.map (fun i => g i r c)).sum := by
  induction L generalizing s with
  | nil => simp [ha, hb]
  | cons i L ih =>
    obtain ⟨h1, h2, h3⟩ := hstep s i ha hb
    obtain ⟨k1, k2, k3⟩ := ih (f s i) h1 h2
    refine ⟨k1, k2, fun r c => ?_⟩
    simp only [List.foldl_cons, List.map_cons, List.sum_cons]
    rw [k3, h3]
    ring

/-- One accumulating write of `matNMul` with the destination being the object
`a`, once `a` has been zeroed: `a` stays zero. -/
theorem matNMul_step_alias_left {P : Type} [DecidableEq P] {n : Nat} (a b : P)
    (x y i : Fin n) (s : P → matN n ℝ) (h : s a = fun _ _ => 0) :
    (Function.update s a
      (Function.update (s a) x
        (Function.update (s a x) y (s a x y + s a x i * s b i y)))) a = fun _ _ => 0 := by
  rw [Function.update_same]
  funext r c
  simp only [h, zero_mul, add_zero]
  by_cases hr : r = x
  · subst hr
    by_cases hc : c = y
    · subst hc
      simp
    · simp [Function.update, hc]
  · simp [Function.update, hr]

/-- One accumulating write of `matNMul` with the destination being the object
`b`, once `b` has been zeroed: `b` stays zero. -/
theorem matNMul_step_alias_right {P : Type} [DecidableEq P] {n : Nat} (a b : P)
    (x y i : Fin n) (s : P → matN n ℝ) (h : s b = fun _ _ => 0) :
    (Function.update s b
      (Function.update (s b) x
        (Function.update (s b x) y (s b x y + s a x i * s b i y)))) b = fun _ _ => 0 := by
  rw [Function.update_same]
  funext r c
  simp only [h, mul_zero, add_zero]
  by_cases hr : r = x
  · subst hr
    by_cases hc : c = y
    · subst hc
      simp
    · simp [Function.update, hc]
  · simp [Function.update, hr]

/-- With the destination being the object `a`, `matNMulAt` leaves the zero
matrix there. -/
theorem matNMulAt_alias_left {P : Type} [DecidableEq P] (n : Nat) (m : P → matN n ℝ)
    (a b : P) : matNMulAt n m a a b a = fun _ _ => 0 := by
  simp only [matNMulAt]
  apply foldl_invariant (fun s : P → matN n ℝ => s a = fun _ _ => 0)
  · intro s x hs
    apply foldl_invariant (fun s : P → matN n ℝ => s a = fun _ _ => 0)
    · intro s y hs
      apply foldl_invariant (fun s : P → matN n ℝ => s a = fun _ _ => 0)
      · intro s i hs
        exact matNMul_step_alias_left a b x y i s hs
      · exact hs
    · exact hs
  · simp

/-- With the destination being the object `b`, `matNMulAt` leaves the zero
matrix there. -/
theorem matNMulAt_alias_right {P : Type} [DecidableEq P] (n : Nat) (m : P → matN n ℝ)
    (a b : P) : matNMulAt n m b a b b = fun _ _ => 0 := by
  simp only [matNMulAt]
  apply foldl_invariant (fun s : P → matN n ℝ => s b = fun _ _ => 0)
  · intro s x hs
    apply foldl_invariant (fun s : P → matN n ℝ => s b = fun _ _ => 0)
    · intro s y hs
      apply foldl_invariant (fun s : P → matN n ℝ => s b = fun _ _ => 0)
      · intro s i hs
        exact matNMul_step_alias_right a b x y i s hs
      · exact hs
    · exact hs
  · simp

/-- One accumulating write of `matNMul` with a destination that is neither `a`
nor `b`: `a` and `b` are as before and the cell `(x, y)` of the destination
has gained `a[x][i] * b[i][y]`. -/
theorem matNMul_step_separate {P : Type} [DecidableEq P] {n : Nat} (dest a b : P)
    (hda : dest ≠ a) (hdb : dest ≠ b) (A B : matN n ℝ) (x y i : Fin n)
    (s : P → matN n ℝ) (ha : s a = A) (hb : s b = B) :
    (Function.update s dest
        (Function.update (s dest) x
          (Function.update (s dest x) y (s dest x y + s a x i * s b i y)))) a = A
      ∧ (Function.update s dest
        (Function.update (s dest) x
          (Function.update (s dest x) y (s dest x y + s a x i * s b i y)))) b = B
      ∧ ∀ r c, (Function.update s dest
        (Function.update (s dest) x
          (Function.update (s dest x) y (s dest x y + s a x i * s b i y)))) dest r c
          = s dest r c + (if r = x ∧ c = y then A x i * B i y else 0) := by
  refine ⟨?_, ?_, fun r c => ?_⟩
  · rw [Function.update_noteq (Ne.symm hda), ha]
  · rw [Function.update_noteq (Ne.symm hdb), hb]
  · rw [Function.update_same, ha, hb]
    by_cases hr : r = x
    · subst hr
      by_cases hc : c = y
      · subst hc
        simp
      · simp [Function.update, hc]
    · simp [Function.update, hr]

/-- With a destination that is neither `a` nor `b`, `matNMulAt` leaves the
row-by-column product of `a` and `b` there. -/
theorem matNMulAt_separate {P : Type} [DecidableEq P] (n : Nat) (m : P → matN n ℝ)
    (dest a b : P) (hda : dest ≠ a) (hdb : dest ≠ b) :
    matNMulAt n m dest a b dest = rowByColumnProduct n (m a) (m b) := by
  have h0a : (Function.update m dest (fun _ _ => (0 : ℝ))) a = m a :=
    Function.update_noteq (Ne.symm hda) _ _
  have h0b : (Function.update m dest (fun _ _ => (0 : ℝ))) b = m b :=
    Function.update_noteq (Ne.symm hdb) _ _
  have hinner : ∀ (x y : Fin n) (s : P → matN n ℝ), s a = m a → s b = m b → _ :=
    fun x y s ha hb => foldl_adds dest a b (m a) (m b) _ _
      (fun s i ha hb => matNMul_step_separate dest a b hda hdb (m a) (m b) x y i s ha hb)
      (List.finRange n) s ha hb
  have hmid : ∀ (x : Fin n) (s : P → matN n ℝ), s a = m a → s b = m b → _ :=
    fun x s ha hb => foldl_adds dest a b (m a) (m b) _ _
      (fun s y ha hb => hinner x y s ha hb) (List.finRange n) s ha hb
  have houter := foldl_adds dest a b (m a) (m b) _ _
    (fun s x ha hb => hmid x s ha hb) (List.finRange n) _ h0a h0b
  funext r c
  simp only [matNMulAt]
  rw [houter.2.2 r c]
  simp only [Function.update_same, rowByColumnProduct, ← Fin.sum_univ_def]
  simp [ite_and, Finset.sum_ite_eq]

/-- C19 as stated fails: for `N = 2`, with the identity matrix as the object `a`
at the address `false` and as the object `b` at the address `true`, the
row-by-column product has `1` in the cell `(0, 0)`, but `matNMul` called with
the destination being `a`, and called with the destination being `b`, leaves
`0` there. -/
theorem matNMulAt_in_place_counterexample :
    rowByColumnProduct 2 (fun i j => if i = j then (1 : ℝ) else 0)
        (fun i j => if i = j then (1 : ℝ) else 0) 0 0 = 1
      ∧ matNMulAt 2 (fun _ : Bool => fun i j => if i = j then (1 : ℝ) else 0)
          false false true false 0 0 = 0
      ∧ matNMulAt 2 (fun _ : Bool => fun i j => if i = j then (1 : ℝ) else 0)
          true false true true 0 0 = 0
      ∧ matNMulAt 2 (fun _ : Bool => fun i j => if i = j then (1 : ℝ) else 0)
          false false true false
          ≠ rowByColumnProduct 2 (fun i j => if i = j then (1 : ℝ) else 0)
              (fun i j => if i = j then (1 : ℝ) else 0)
      ∧ matNMulAt 2 (fun _ : Bool => fun i j => if i = j then (1 : ℝ) else 0)
          true false true true
          ≠ rowByColumnProduct 2 (fun i j => if i = j then (1 : ℝ) else 0)
              (fun i j => if i = j then (1 : ℝ) else 0) := by
  have hp : rowByColumnProduct 2 (fun i j => if i = j then (1 : ℝ) else 0)
      (fun i j => if i = j then (1 : ℝ) else 0) 0 0 = 1 := by
    simp [rowByColumnProduct, Fin.sum_univ_two]
  have hl := matNMulAt_alias_left 2
    (fun _ : Bool => fun i j : Fin 2 => if i = j then (1 : ℝ) else 0) false true
  have hr := matNMulAt_alias_right 2
    (fun _ : Bool => fun i j : Fin 2 => if i = j then (1 : ℝ) else 0) false true
  refine ⟨hp, by rw [hl], by rw [hr], ?_, ?_⟩
  · intro h
    have h00 := congrFun (congrFun h 0) 0
    rw [hl, hp] at h00
    exact zero_ne_one h00
  · intro h
    have h00 := congrFun (congrFun h 0) 0
    rw [hr, hp] at h00
    exact zero_ne_one h00

/-- C19 (amended): for every size `n` (the macro is instantiated at 2, 3 and
4), `matNMul` leaves the row-by-column product of `a` and `b` in a destination
that is neither `a` nor `b`; called with the destination being `a`, or being
`b`, it leaves the zero matrix there. -/
theorem matNMulAt_spec {P : Type} [DecidableEq P] (n : Nat) (m : P → matN n ℝ) (a b : P) :
    (∀ dest : P, dest ≠ a → dest ≠ b →
        matNMulAt n m dest a b dest = rowByColumnProduct n (m a) (m b))
      ∧ matNMulAt n m a a b a = (fun _ _ => 0)
      ∧ matNMulAt n m b a b b = (fun _ _ => 0) :=
  ⟨fun dest hda hdb => matNMulAt_separate n m dest a b hda hdb,
    matNMulAt_alias_left n m a b, matNMulAt_alias_right n m a b⟩

/-- C19 (amended) for `N = 2, 3, 4`, with the identity matrix at every address,
`a` at the address `0`, `b` at `1` and a separate destination at `2`. -/
theorem matNMulAt_spec_witness :
    ((2 : Nat) ≠ 0 ∧ (2 : Nat) ≠ 1)
      ∧ matNMulAt 2 (fun _ : Nat => fun i j => if i = j then (1 : ℝ) else 0) 2 0 1 2
          = rowByColumnProduct 2 (fun i j => if i = j then (1 : ℝ) else 0)
              (fun i j => if i = j then (1 : ℝ) else 0)
      ∧ matNMulAt 3 (fun _ : Nat => fun i j => if i = j then (1 : ℝ) else 0) 2 0 1 2
          = rowByColumnProduct 3 (fun i j => if i = j then (1 : ℝ) else 0)
              (fun i j => if i = j then (1 : ℝ) else 0)
      ∧ matNMulAt 4 (fun _ : Nat => fun i j => if i = j then (1 : ℝ) else 0) 2 0 1 2
          = rowByColumnProduct 4 (fun i j => if i = j then (1 : ℝ) else 0)
              (fun i j => if i = j then (1 : ℝ) else 0) :=
  ⟨⟨by decide, by decide⟩,
    (matNMulAt_spec 2 (fun _ : Nat => fun i j => if i = j then (1 : ℝ) else 0) 0 1).1 2
      (by decide) (by decide),
    (matNMulAt_spec 3 (fun _ : Nat => fun i j => if i = j then (1 : ℝ) else 0) 0 1).1 2
      (by decide) (by decide),
    (matNMulAt_spec 4 (fun _ : Nat => fun i j => if i = j then (1 : ℝ) else 0) 0 1).1 2
      (by decide) (by decide)⟩

/-- C20: the squared length of `quatMul a b` is the product of the squared
lengths of `a` and `b`, so the product of two unit quaternions is a unit
quaternion. -/
theorem quatLength_quatMul (a b : quat ℝ) :
    quatLength Real.sqrt (quatMul a b) ^ 2
        = quatLength Real.sqrt a ^ 2 * quatLength Real.sqrt b ^ 2
      ∧ (quatLength Real.sqrt a = 1 → quatLength Real.sqrt b = 1 →
          quatLength Real.sqrt (quatMul a b) = 1) := by
  have hsq : quatLength Real.sqrt (quatMul a b) ^ 2
      = quatLength Real.sqrt a ^ 2 * quatLength Real.sqrt b ^ 2 := by
    obtain ⟨ax, ay, az, aw⟩ := a
    obtain ⟨bx, b2, bz, bw⟩ := b
    simp only [quatLength, vec4Length, quat.vec, quatMul, quat.axis, vec3Cross, vec3MulScalar,
      vec3Add, vec3Dot]
    rw [Real.sq_sqrt (sumsq4_nonneg _ _ _ _), Real.sq_sqrt (sumsq4_nonneg _ _ _ _),
      Real.sq_sqrt (sumsq4_nonneg _ _ _ _)]
    ring
  refine ⟨hsq, fun ha hb => ?_⟩
  rw [ha, hb] at hsq
  have hnn : 0 ≤ quatLength Real.sqrt (quatMul a b) := Real.sqrt_nonneg _
  nlinarith

/-- C20 at `a = b = (0, 0, 0, 1)`. -/
theorem quatLength_quatMul_witness :
    quatLength Real.sqrt (⟨0, 0, 0, 1⟩ : quat ℝ) = 1
      ∧ quatLength Real.sqrt (quatMul (⟨0, 0, 0, 1⟩ : quat ℝ) ⟨0, 0, 0, 1⟩) = 1 := by
  have h1 : quatLength Real.sqrt (⟨0, 0, 0, 1⟩ : quat ℝ) = 1 := by
    simp [quatLength, vec4Length, quat.vec]
  exact ⟨h1, (quatLength_quatMul ⟨0, 0, 0, 1⟩ ⟨0, 0, 0, 1⟩).2 h1 h1⟩

/-- The unrolled `mat4Mul` is what the three loops of `matNMulAt` leave, for
`n = 4`, in a destination that is neither `a` nor `b`. -/
theorem mat4Mul_eq_matNMulAt {P : Type} [DecidableEq P] (m : P → matN 4 ℝ) (dest a b : P)
    (A B : mat4 ℝ) (hA : m a = A.toMatN) (hB : m b = B.toMatN)
    (hda : dest ≠ a) (hdb : dest ≠ b) :
    matNMulAt 4 m dest a b dest = (mat4Mul A B).toMatN := by
  rw [matNMulAt_separate 4 m dest a b hda hdb, hA, hB]
  funext x y
  simp only [rowByColumnProduct, Fin.sum_univ_four, mat4.toMatN, mat4Mul]
  have h1 : ((1 : Fin 4) : ℕ) = 1 := rfl
  have h2 : ((2 : Fin 4) : ℕ) = 2 := rfl
  have h3 : ((3 : Fin 4) : ℕ) = 3 := rfl
  fin_cases x <;> fin_cases y <;> simp [mat4.row, vec4.data, h1, h2, h3]

/-- C21: for every transform `a` and point `p`, applying `transformToMat4 a` to
`(p.x, p.y, p.z, 1)` with `mat4MulVec4` gives `(r.x, r.y, r.z, 1)`, where `r` is
the `pos` field of `transformMul a b` for every `b` with `b.pos = p`, that is
`r = a.pos + quatMulVec3 a.rot p ⊙ a.scale`. -/
theorem mat4MulVec4_transformToMat4 (a : transform ℝ) (p : vec3 ℝ) :
    (∀ b : transform ℝ, b.pos = p →
        mat4MulVec4 (transformToMat4 a) ⟨p.x, p.y, p.z, 1⟩
          = ⟨(transformMul a b).pos.x, (transformMul a b).pos.y, (transformMul a b).pos.z, 1⟩)
      ∧ (∀ b : transform ℝ, b.pos = p →
        (transformMul a b).pos = vec3Add a.pos (vec3Mul (quatMulVec3 a.rot p) a.scale)) := by
  refine ⟨?_, ?_⟩
  · intro b hb
    subst hb
    simp only [mat4MulVec4, transformToMat4, quatToMat4, quatToMat3, mat3ToMat4, mat4Mul,
      transformMul, quatMulVec3, quat.axis, vec3Cross, vec3MulScalar, vec3Add, vec3Mul,
      vec4.mk.injEq]
    refine ⟨?_, ?_, ?_, ?_⟩ <;> ring
  · intro b hb
    subst hb
    simp only [transformMul, vec3Add, vec3.mk.injEq]
    refine ⟨?_, ?_, ?_⟩ <;> ring

/-- C21 at the transform with `pos = (1, 2, 3)`, `scale = (2, 2, 2)`,
`rot = (0, 0, 0, 1)`, the point `p = (4, 5, 6)` and `b` the identity moved to
`p`. -/
theorem mat4MulVec4_transformToMat4_witness :
    (⟨⟨4, 5, 6⟩, ⟨1, 1, 1⟩, ⟨0, 0, 0, 1⟩⟩ : transform ℝ).pos = ⟨4, 5, 6⟩
      ∧ mat4MulVec4 (transformToMat4 (⟨⟨1, 2, 3⟩, ⟨2, 2, 2⟩, ⟨0, 0, 0, 1⟩⟩ : transform ℝ))
          ⟨4, 5, 6, 1⟩
        = ⟨(transformMul (⟨⟨1, 2, 3⟩, ⟨2, 2, 2⟩, ⟨0, 0, 0, 1⟩⟩ : transform ℝ)
              ⟨⟨4, 5, 6⟩, ⟨1, 1, 1⟩, ⟨0, 0, 0, 1⟩⟩).pos.x,
           (transformMul (⟨⟨1, 2, 3⟩, ⟨2, 2, 2⟩, ⟨0, 0, 0, 1⟩⟩ : transform ℝ)
              ⟨⟨4, 5, 6⟩, ⟨1, 1, 1⟩, ⟨0, 0, 0, 1⟩⟩).pos.y,
           (transformMul (⟨⟨1, 2, 3⟩, ⟨2, 2, 2⟩, ⟨0, 0, 0, 1⟩⟩ : transform ℝ)
              ⟨⟨4, 5, 6⟩, ⟨1, 1, 1⟩, ⟨0, 0, 0, 1⟩⟩).pos.z, 1⟩
      ∧ (transformMul (⟨⟨1, 2, 3⟩, ⟨2, 2, 2⟩, ⟨0, 0, 0, 1⟩⟩ : transform ℝ)
            ⟨⟨4, 5, 6⟩, ⟨1, 1, 1⟩, ⟨0, 0, 0, 1⟩⟩).pos
          = vec3Add (⟨1, 2, 3⟩ : vec3 ℝ)
              (vec3Mul (quatMulVec3 (⟨0, 0, 0, 1⟩ : quat ℝ) ⟨4, 5, 6⟩) ⟨2, 2, 2⟩) :=
  ⟨rfl, (mat4MulVec4_transformToMat4 ⟨⟨1, 2, 3⟩, ⟨2, 2, 2⟩, ⟨0, 0, 0, 1⟩⟩ ⟨4, 5, 6⟩).1
    ⟨⟨4, 5, 6⟩, ⟨1, 1, 1⟩, ⟨0, 0, 0, 1⟩⟩ rfl,
    (mat4MulVec4_transformToMat4 ⟨⟨1, 2, 3⟩, ⟨2, 2, 2⟩, ⟨0, 0, 0, 1⟩⟩ ⟨4, 5, 6⟩).2
    ⟨⟨4, 5, 6⟩, ⟨1, 1, 1⟩, ⟨0, 0, 0, 1⟩⟩ rfl⟩

/-- The double-angle identities at the half angle `θ * 0.5` of
`quatAxisAngle`. -/
theorem half_angle (θ : ℝ) :
    Real.cos θ = 1 - 2 * (Real.sin (θ * 0.5) * Real.sin (θ * 0.5))
      ∧ Real.sin θ = 2 * (Real.sin (θ * 0.5) * Real.cos (θ * 0.5)) := by
  have hθ : θ = 2 * (θ * 0.5) := by
    rw [show (0.5 : ℝ) = 1 / 2 by norm_num]
    ring
  generalize θ * 0.5 = h at hθ
  subst hθ
  refine ⟨?_, ?_⟩
  · rw [Real.cos_two_mul]
    have := Real.sin_sq_add_cos_sq h
    nlinarith
  · rw [Real.sin_two_mul]
    ring

/-- C22: for every angle `θ`, `quatToMat3` of the axis-angle quaternion about
X, Y, Z is `mat3RotateX θ`, `mat3RotateY θ`, `mat3RotateZ θ`, entry by entry. -/
theorem quatToMat3_quatAxisAngle (θ : ℝ) :
    quatToMat3 (quatAxisAngle Real.sin Real.cos vec3XAxis θ) = mat3RotateX Real.cos Real.sin θ
      ∧ quatToMat3 (quatAxisAngle Real.sin Real.cos vec3YAxis θ)
          = mat3RotateY Real.cos Real.sin θ
      ∧ quatToMat3 (quatAxisAngle Real.sin Real.cos vec3ZAxis θ)
          = mat3RotateZ Real.cos Real.sin θ := by
  obtain ⟨hc, hs⟩ := half_angle θ
  refine ⟨?_, ?_, ?_⟩
  · simp only [quatToMat3, quatAxisAngle, vec3MulScalar, vec3XAxis, mat3RotateX, hc, hs,
      mat3.mk.injEq]
    refine ⟨?_, ?_, ?_, ?_, ?_, ?_, ?_, ?_, ?_⟩ <;> ring
  · simp only [quatToMat3, quatAxisAngle, vec3MulScalar, vec3YAxis, mat3RotateY, hc, hs,
      mat3.mk.injEq]
    refine ⟨?_, ?_, ?_, ?_, ?_, ?_, ?_, ?_, ?_⟩ <;> ring
  · simp only [quatToMat3, quatAxisAngle, vec3MulScalar, vec3ZAxis, mat3RotateZ, hc, hs,
      mat3.mk.injEq]
    refine ⟨?_, ?_, ?_, ?_, ?_, ?_, ?_, ?_, ?_⟩ <;> ring

end MMath
